import Mathlib

/-!
Verification of the Enhanced RLM retrieval pipeline (keyword extraction,
ripgrep/grep search, chunking, ranking, and Haiku distillation orchestration)
against its natural-language specification.

The Python sources are shallowly embedded: strings are modelled as `List Char`
(`Str`), Python's ASCII-oriented string operations (`lower`, `strip`, `split`,
`count`, `in`) are defined directly on `Str`, and effectful boundaries
(the filesystem, the ripgrep/grep executables, the Anthropic API and the
process-wide cache) are passed explicitly as function arguments and state.
Python's `re` module is Unicode-aware; the embedding models the character
classes involved (`\w`, `\s`, `[a-zA-Z0-9_]`) at ASCII granularity, which is
faithful on all ASCII inputs.
-/

namespace EnhancedRLM

/-- Strings are modelled as lists of characters. -/
abbrev Str := List Char

/-- Literal helper: convert a Lean string literal to the `Str` model. -/
def S (s : String) : Str := s.toList

/-- Python `\s` (ASCII range): space, tab, newline, carriage return,
vertical tab, form feed. -/
def pySpace (c : Char) : Bool :=
  c = ' ' || c = '\t' || c = '\n' || c = '\x0d' || c = '\x0b' || c = '\x0c'

/-- Python `str.strip()`: drop leading and trailing whitespace. -/
def pyStrip (s : Str) : Str :=
  ((s.dropWhile pySpace).reverse.dropWhile pySpace).reverse

/-- Python `str.split("\n")`: split on every newline; `"".split("\n") = [""]`. -/
def splitNl : Str → List Str
  | [] => [[]]
  | c :: cs =>
    if c = '\n' then [] :: splitNl cs
    else
      match splitNl cs with
      | r :: rs => (c :: r) :: rs
      | [] => [[c]]

/-- Python `sep.join(parts)`. -/
def joinSep (sep : Str) : List Str → Str
  | [] => []
  | [x] => x
  | x :: y :: xs => x ++ sep ++ joinSep sep (y :: xs)

/-- Python `str.lower()` restricted to ASCII: `Char.toLower` maps `A`-`Z` to
`a`-`z` and leaves everything else unchanged, exactly as CPython does on the
ASCII range. -/
def lowerS (s : Str) : Str := s.map Char.toLower

/-- Python `str.count(sub)` worker: scans left to right, counting
non-overlapping occurrences; `fuel` bounds recursion depth structurally and is
always called with `fuel = s.length`, which suffices because every step
consumes at least one character. -/
def countSubAux (sub : Str) : Nat → Str → Nat
  | _, [] => 0
  | 0, _ => 0
  | fuel + 1, c :: cs =>
    if sub.isPrefixOf (c :: cs) then 1 + countSubAux sub fuel ((c :: cs).drop sub.length)
    else countSubAux sub fuel cs

/-- Python `s.count(sub)`: non-overlapping occurrence count;
`s.count("") = len(s) + 1`. -/
def countSub (sub s : Str) : Nat :=
  if sub = [] then s.length + 1 else countSubAux sub s.length s

/-- Python `sub in s` (contiguous substring containment). -/
def isSubstr (sub : Str) : Str → Bool
  | [] => sub.isEmpty
  | c :: cs => sub.isPrefixOf (c :: cs) || isSubstr sub cs

/-- Py `int(digit string)` for the digits captured by `(\d+)`. -/
def natOfDigits (ds : Str) : Nat :=
  ds.foldl (fun n c => 10 * n + (c.toNat - 48)) 0

/-- Render a `Nat` in decimal, as Python `str(n)` does. -/
def natToStr (n : Nat) : Str := (toString n).toList

/-! ## config.py -/

/-- `SearchConfig` from config.py. -/
structure SearchConfig where
  max_results : Nat
  chunk_size : Nat
  top_chunks : Nat
deriving DecidableEq, Repr

/-- Default `SearchConfig` values from config.py. -/
def defaultSearchConfig : SearchConfig := ⟨50, 500, 10⟩

/-- `HaikuConfig` from config.py: model name and the four token budgets. -/
structure HaikuConfig where
  model : Str
  simple_budget : Nat
  code_example_budget : Nat
  complex_budget : Nat
  default_budget : Nat
deriving DecidableEq, Repr

/-- Default `HaikuConfig` values from config.py: simple 1000,
code_example 4000, complex 6000, default 2000. -/
def defaultHaikuConfig : HaikuConfig :=
  ⟨S "claude-3-5-haiku-20241022", 1000, 4000, 6000, 2000⟩

/-- `KnowledgeBaseConfig` from config.py: root file name, docs folder and the
include/exclude glob lists. -/
structure KnowledgeBaseConfig where
  root_file : Str
  docs_folder : Str
  file_patterns : List Str
  exclude_patterns : List Str
deriving DecidableEq, Repr

/-- Default `KnowledgeBaseConfig` from config.py. -/
def defaultKnowledgeBaseConfig : KnowledgeBaseConfig :=
  ⟨S "CLAUDE.md", S ".claude",
   [S "*.md", S "*.py", S "*.prg", S "*.ch", S "*.c", S "*.h", S "*.cs",
    S "*.ts", S "*.tsx", S "*.js", S "*.jsx", S "*.sql", S "*.ps1", S "*.sh"],
   [S "*.pyc", S "__pycache__", S ".git", S "node_modules"]⟩

/-- `get_token_budget` from config.py: dictionary lookup over the three
recognized query types with `default_budget` as the `.get` fallback. -/
def get_token_budget (query_type : Str) (config : HaikuConfig) : Nat :=
  if query_type = S "simple" then config.simple_budget
  else if query_type = S "code_example" then config.code_example_budget
  else if query_type = S "complex" then config.complex_budget
  else config.default_budget

/-! ## search.py: WSL path helpers and keyword extraction -/

/-- `is_wsl_path` from search.py: does the path start with one of the two
recognized WSL UNC prefixes? -/
def is_wsl_path (path : Str) : Bool :=
  (S "\\\\wsl.localhost\\").isPrefixOf path || (S "\\\\wsl$\\").isPrefixOf path

/-- `wsl_path_to_linux` from search.py: strip the UNC prefix, drop the
distribution-name segment, and rewrite backslashes to forward slashes. -/
def wsl_path_to_linux (path : Str) : Str :=
  let remainder :=
    if (S "\\\\wsl.localhost\\").isPrefixOf path then
      some (path.drop (S "\\\\wsl.localhost\\").length)
    else if (S "\\\\wsl$\\").isPrefixOf path then
      some (path.drop (S "\\\\wsl$\\").length)
    else none
  match remainder with
  | none => path
  | some r =>
    let distro := r.takeWhile (fun c => !(c = '\\'))
    let rest := r.drop distro.length
    match rest with
    | [] => S "/"
    | _ :: tail => '/' :: tail.map (fun c => if c = '\\' then '/' else c)

/-- `STOP_WORDS` from search.py. -/
def STOP_WORDS : List Str :=
  [S "a", S "an", S "the", S "is", S "are", S "was", S "were", S "be",
   S "been", S "being", S "have", S "has", S "had", S "do", S "does",
   S "did", S "will", S "would", S "could", S "should", S "may", S "might",
   S "must", S "shall", S "can", S "need", S "dare", S "ought", S "used",
   S "to", S "of", S "in", S "for", S "on", S "with", S "at", S "by",
   S "from", S "as", S "into", S "through", S "during", S "before",
   S "after", S "above", S "below", S "between", S "under", S "again",
   S "further", S "then", S "once", S "here", S "there", S "when",
   S "where", S "why", S "how", S "all", S "each", S "few", S "more",
   S "most", S "other", S "some", S "such", S "no", S "nor", S "not",
   S "only", S "own", S "same", S "so", S "than", S "too", S "very",
   S "just", S "also", S "now", S "i", S "me", S "my", S "myself", S "we",
   S "our", S "ours", S "you", S "your", S "yours", S "he", S "him",
   S "his", S "she", S "her", S "hers", S "it", S "its", S "they",
   S "them", S "their", S "what", S "which", S "who", S "whom", S "this",
   S "that", S "these", S "those", S "am"]

/-- ASCII word character for Python's `\w` / `[a-zA-Z0-9_]` class. -/
def wordChar (c : Char) : Bool := c.isAlphanum || c = '_'

/-- First character class `[a-zA-Z_]` of the keyword token regex. -/
def startsIdent : Str → Bool
  | [] => false
  | c :: _ => c.isAlpha || c = '_'

/-- Maximal runs of word characters of a string, in order.  A match of
`\b[a-zA-Z_][a-zA-Z0-9_]*\b` is exactly a maximal word-character run whose
first character is a letter or underscore (runs starting with a digit contain
no word boundary, so the regex cannot match inside them). -/
def runs : Str → List Str
  | [] => []
  | [c] => if wordChar c then [[c]] else []
  | c :: d :: cs =>
    if wordChar c then
      if wordChar d then
        match runs (d :: cs) with
        | r :: rs => (c :: r) :: rs
        | [] => [[c]]
      else [c] :: runs (d :: cs)
    else runs (d :: cs)

/-- `re.findall(r"\b[a-zA-Z_][a-zA-Z0-9_]*\b", s)`: the maximal
word-character runs of `s` that start with a letter or underscore. -/
def tokenize (s : Str) : List Str := (runs s).filter startsIdent

/-- Keyword filter from `extract_keywords`: not a stop word and longer than
two characters. -/
def keepWord (w : Str) : Bool := decide (w ∉ STOP_WORDS) && decide (2 < w.length)

/-- Order-preserving first-occurrence deduplication (the `seen` set loop of
`extract_keywords`). -/
def dedupFirstAux : List Str → List Str → List Str
  | [], _ => []
  | w :: ws, seen =>
    if w ∈ seen then dedupFirstAux ws seen
    else w :: dedupFirstAux ws (w :: seen)

/-- Order-preserving deduplication, first occurrence wins. -/
def dedupFirst (l : List Str) : List Str := dedupFirstAux l []

/-- `KnowledgeSearch.extract_keywords` from search.py: lowercase, tokenize
with the word-identifier regex, filter stop words and short words,
deduplicate preserving order. -/
def extract_keywords (query : Str) : List Str :=
  dedupFirst ((tokenize (lowerS query)).filter keepWord)

/-! ## chunker.py -/

/-- `Chunk` from chunker.py. -/
structure Chunk where
  file_path : Str
  start_line : Nat
  end_line : Nat
  content : Str
  header : Option Str
deriving DecidableEq, Repr

/-- `MD_HEADER_PATTERN.match(line)` for a newline-free `line`: the regex
`^(#{1,6})\s+(.+)$` matches iff the maximal leading run of `#` has length one
to six and is followed by a whitespace character plus at least one further
character; the captured title is the remainder stripped (stripping group 2 is
insensitive to how `\s+`/`.+` split the whitespace). -/
def mdHeaderMatch (line : Str) : Option Str :=
  let hashes := line.takeWhile (fun c => c = '#')
  let rest := line.dropWhile (fun c => c = '#')
  if 1 ≤ hashes.length ∧ hashes.length ≤ 6 then
    match rest with
    | c :: _ :: _ => if pySpace c then some (pyStrip rest) else none
    | _ => none
  else none

/-- The `for i, line in enumerate(lines)` match-collection loop shared by
`chunk_markdown` and `chunk_code`: pairs of (0-based line index, captured
text) for every line the matcher accepts. -/
def collectMarksAux (f : Str → Option Str) (k : Nat) : List Str → List (Nat × Str)
  | [] => []
  | l :: ls =>
    match f l with
    | some t => (k, t) :: collectMarksAux f (k + 1) ls
    | none => collectMarksAux f (k + 1) ls

/-- Collect matching lines with 0-based indices. -/
def collectMarks (f : Str → Option Str) (lines : List Str) : List (Nat × Str) :=
  collectMarksAux f 0 lines

/-- `end_idx` of the section-building loops: the line before the next mark,
or the last line of the file for the final mark. -/
def sectionEnd (lines : List Str) : List (Nat × Str) → Nat
  | [] => lines.length - 1
  | (j, _) :: _ => j - 1

/-- The section content `"\n".join(lines[line_idx:end_idx + 1])`. -/
def sectionContent (lines : List Str) (i : Nat) (rest : List (Nat × Str)) : Str :=
  joinSep ['\n'] ((lines.drop i).take (sectionEnd lines rest + 1 - i))

/-- The section-building loop shared by `chunk_markdown` (with
`skipEmpty = true`, header rendered as the title itself) and `chunk_code`
(with `skipEmpty = false`, header rendered as `"function <name>"`): each mark
starts a chunk running through the line before the next mark, the last
through end of file. -/
def buildChunks (fp : Str) (lines : List Str) (skipEmpty : Bool)
    (mkHeader : Str → Str) : List (Nat × Str) → List Chunk
  | [] => []
  | (i, t) :: rest =>
    (if skipEmpty && decide (pyStrip (sectionContent lines i rest) = []) then []
     else [⟨fp, i + 1, sectionEnd lines rest + 1, sectionContent lines i rest,
       some (mkHeader t)⟩]) ++
      buildChunks fp lines skipEmpty mkHeader rest

/-- `Chunker.chunk_markdown` from chunker.py. -/
def chunk_markdown (content : Str) (fp : Str) : List Chunk :=
  let lines := splitNl content
  let headers := collectMarks mdHeaderMatch lines
  if headers = [] then [⟨fp, 1, lines.length, content, none⟩]
  else buildChunks fp lines true (fun t => t) headers

/-- `Chunker.chunk_code` from chunker.py, parametrized (as in the source) by
the per-language line matcher returning the captured function name. -/
def chunk_code (content : Str) (fp : Str) (pattern : Str → Option Str) : List Chunk :=
  let lines := splitNl content
  let functions := collectMarks pattern lines
  if functions = [] then [⟨fp, 1, lines.length, content, none⟩]
  else buildChunks fp lines false (fun name => S "function " ++ name) functions

/-- The whole-file single chunk built by `chunk_file` for unrecognized
extensions (and by the no-match branches of the two segmenters). -/
def chunk_whole_file (content : Str) (fp : Str) : Chunk :=
  ⟨fp, 1, (splitNl content).length, content, none⟩

/-- The chunk-level line invariants claimed by the spec, for a segmentation
of the file `content`: every chunk covers a nonempty 1-indexed inclusive line
range inside the file, its content splits back into exactly the source lines
of that range, and the chunks of one pass are disjoint and ordered. -/
def chunkInvariants (cs : List Chunk) (content : Str) : Prop :=
  (∀ c ∈ cs, 1 ≤ c.start_line ∧ c.start_line ≤ c.end_line ∧
    c.end_line ≤ (splitNl content).length ∧
    splitNl c.content =
      ((splitNl content).drop (c.start_line - 1)).take
        (c.end_line + 1 - c.start_line) ∧
    (splitNl c.content).length = c.end_line + 1 - c.start_line) ∧
  cs.Pairwise (fun a b => a.end_line < b.start_line)

/-! ## search.py: the ripgrep/grep search engine

The filesystem and the two external binaries are modelled as an explicit
environment: `pathExists` answers `Path.exists()`, and `runRg`/`runGrep` map a
full command line to the observable outcome of `subprocess.run` (captured
stdout, `TimeoutExpired`, or `FileNotFoundError`).  `platform.system() ==
"Windows" and is_wsl_path(workspace)` is folded into the single flag
`isWinWsl`. -/

/-- Observable outcome of one external tool invocation. -/
inductive ToolOutcome where
  | success (stdout : Str)
  | timeout
  | notFound
deriving DecidableEq, Repr

/-- Environment: filesystem and tool behaviour. -/
structure SearchEnv where
  pathExists : Str → Bool
  runRg : List Str → ToolOutcome
  runGrep : List Str → ToolOutcome

/-- `SearchResult` from search.py. -/
structure SearchResult where
  file_path : Str
  line_number : Nat
  line_content : Str
  match_text : Str
deriving DecidableEq, Repr

/-- The parts of `Config` that `KnowledgeSearch` reads. -/
structure ConfigM where
  root_file_path : Str
  docs_folder_path : Str
  knowledge_base : KnowledgeBaseConfig
  search : SearchConfig

/-- `Config.get_search_paths`: root rules file first, then the docs folder,
each only if it exists. -/
def get_search_paths (env : SearchEnv) (cfg : ConfigM) : List Str :=
  (if env.pathExists cfg.root_file_path then [cfg.root_file_path] else []) ++
    (if env.pathExists cfg.docs_folder_path then [cfg.docs_folder_path] else [])

/-- Python 3 `re.escape`: ASCII alphanumerics and underscore unchanged,
everything else backslash-escaped. -/
def pyReEscape (s : Str) : Str :=
  s.flatMap (fun c => if c.isAlphanum || c = '_' then [c] else ['\\', c])

/-- `"|".join(re.escape(kw) for kw in keywords)`. -/
def buildPattern (keywords : List Str) : Str :=
  joinSep ['|'] (keywords.map pyReEscape)

/-- `KnowledgeSearch._build_ripgrep_command`. -/
def build_ripgrep_command (kb : KnowledgeBaseConfig) (isWinWsl : Bool)
    (pattern searchPath : Str) (maxResults : Option Nat) : List Str :=
  (if isWinWsl then [S "wsl.exe", S "rg"] else [S "rg"]) ++
    [S "--ignore-case", S "--line-number", S "--no-heading", S "--color=never"] ++
    kb.file_patterns.flatMap (fun g => [S "--glob", g]) ++
    kb.exclude_patterns.flatMap (fun g => [S "--glob", '!' :: g]) ++
    (match maxResults with
     | some m => if m ≠ 0 then [S "--max-count", natToStr m] else []
     | none => []) ++
    [pattern, if isWinWsl then wsl_path_to_linux searchPath else searchPath]

/-- `KnowledgeSearch._build_grep_command`: the fallback tool is restricted to
the four `--include` globs md/prg/c/py. -/
def build_grep_command (isWinWsl : Bool) (pattern searchPath : Str)
    (maxResults : Option Nat) : List Str :=
  (if isWinWsl then [S "wsl.exe", S "grep"] else [S "grep"]) ++
    [S "-r", S "-i", S "-n", S "-E", S "--include=*.md", S "--include=*.prg",
     S "--include=*.c", S "--include=*.py"] ++
    (match maxResults with
     | some m => if m ≠ 0 then [S "-m", natToStr m] else []
     | none => []) ++
    [pattern, if isWinWsl then wsl_path_to_linux searchPath else searchPath]

/-- `re.match(r"^(.+?):(\d+):(.*)$", line)` for a newline-free `line`: scan
for the leftmost colon preceded by a nonempty prefix and followed by one or
more digits and another colon (backtracking inside `(\d+)` can never expose a
colon, so the maximal digit run is the only candidate). -/
def parseHitAux : Str → Str → Option (Str × Nat × Str)
  | _, [] => none
  | pre, c :: rest =>
    if c = ':' ∧ pre ≠ [] then
      match rest.takeWhile Char.isDigit, rest.dropWhile Char.isDigit with
      | _ :: _, ':' :: content =>
        some (pre.reverse, natOfDigits (rest.takeWhile Char.isDigit), content)
      | _, _ => parseHitAux (c :: pre) rest
    else parseHitAux (c :: pre) rest

/-- Parse one `path:line:content` output line. -/
def parseHit (line : Str) : Option (Str × Nat × Str) := parseHitAux [] line

/-- The matched-keyword scan: first caller-supplied keyword contained
case-insensitively in the hit content, empty string if none. -/
def firstMatchedKw (keywords : List Str) (content : Str) : Str :=
  match keywords.find? (fun kw => isSubstr (lowerS kw) (lowerS content)) with
  | some kw => kw
  | none => []

/-- The per-invocation output parsing loop shared by `ripgrep_search` and
`_grep_search`: strip stdout, split on newlines, skip empty lines, parse each
line, and build a `SearchResult` with stripped content and matched keyword. -/
def parseResults (keywords : List Str) (stdout : Str) : List SearchResult :=
  ((splitNl (pyStrip stdout)).filter (fun line => !line.isEmpty)).filterMap
    (fun line => (parseHit line).map (fun r =>
      ⟨r.1, r.2.1, pyStrip r.2.2, firstMatchedKw keywords r.2.2⟩))

/-- The `RuntimeError` message raised when neither tool is available. -/
def availabilityError : Str := S "Neither ripgrep nor grep is available."

/-- The root loop of `KnowledgeSearch._grep_search`. -/
def grepLoop (env : SearchEnv) (isWinWsl : Bool) (keywords : List Str)
    (pattern : Str) (maxResults : Nat) :
    List Str → List SearchResult → Except Str (List SearchResult)
  | [], results => .ok results
  | searchPath :: rest, results =>
    if !env.pathExists searchPath then
      grepLoop env isWinWsl keywords pattern maxResults rest results
    else
      let remaining : Int := (maxResults : Int) - results.length
      if remaining ≤ 0 then .ok results
      else
        match env.runGrep (build_grep_command isWinWsl pattern searchPath
            (some remaining.toNat)) with
        | .success out =>
          grepLoop env isWinWsl keywords pattern maxResults rest
            (results ++ parseResults keywords out)
        | .timeout => .ok results
        | .notFound => .error availabilityError

/-- `KnowledgeSearch._grep_search`. -/
def grep_search (env : SearchEnv) (cfg : ConfigM) (isWinWsl : Bool)
    (keywords : List Str) (max_results : Option Nat) :
    Except Str (List SearchResult) :=
  if keywords = [] then .ok []
  else
    grepLoop env isWinWsl keywords (buildPattern keywords)
      (max_results.getD cfg.search.max_results) (get_search_paths env cfg) []

/-- The root loop of `KnowledgeSearch.ripgrep_search`: on
`FileNotFoundError` the whole search restarts as a grep search with the full
resolved budget. -/
def rgLoop (env : SearchEnv) (cfg : ConfigM) (isWinWsl : Bool)
    (keywords : List Str) (pattern : Str) (maxResults : Nat) :
    List Str → List SearchResult → Except Str (List SearchResult)
  | [], results => .ok results
  | searchPath :: rest, results =>
    if !env.pathExists searchPath then
      rgLoop env cfg isWinWsl keywords pattern maxResults rest results
    else
      let remaining : Int := (maxResults : Int) - results.length
      if remaining ≤ 0 then .ok results
      else
        match env.runRg (build_ripgrep_command cfg.knowledge_base isWinWsl
            pattern searchPath (some remaining.toNat)) with
        | .success out =>
          rgLoop env cfg isWinWsl keywords pattern maxResults rest
            (results ++ parseResults keywords out)
        | .timeout => .ok results
        | .notFound => grep_search env cfg isWinWsl keywords (some maxResults)

/-- `KnowledgeSearch.ripgrep_search`: `useRipgrep` is the `_use_ripgrep` flag
probed at construction time. -/
def ripgrep_search (env : SearchEnv) (cfg : ConfigM) (isWinWsl : Bool)
    (useRipgrep : Bool) (keywords : List Str) (max_results : Option Nat) :
    Except Str (List SearchResult) :=
  if keywords = [] then .ok []
  else if !useRipgrep then grep_search env cfg isWinWsl keywords max_results
  else
    rgLoop env cfg isWinWsl keywords (buildPattern keywords)
      (max_results.getD cfg.search.max_results) (get_search_paths env cfg) []

/-! ## ranker.py -/

/-- `RankedChunk` from ranker.py; `float` scores are modelled as reals. -/
structure RankedChunk where
  chunk : Chunk
  score : ℝ
  matched_keywords : List Str

/-- The combined text `f"{chunk.header or ''} {chunk.content}"` used both for
document frequencies and scoring. -/
def combinedText (c : Chunk) : Str := c.header.getD [] ++ ' ' :: c.content

/-- The `doc_frequencies` Counter built by `Ranker.rank`: for every chunk and
every occurrence of `kw` in the keyword list, one increment if the chunk's
lowered combined text contains `kw.lower()` (so a duplicated keyword counts
once per occurrence); `.get(kw, 0)` lookups are the function's values. -/
def docFreq (chunks : List Chunk) (keywords : List Str) (kw : Str) : Nat :=
  keywords.count kw *
    chunks.countP (fun c => isSubstr (lowerS kw) (lowerS (combinedText c)))

/-- `Ranker._calculate_score`: TF-IDF-like score plus diversity boost, and
the matched keyword list.  Python's per-keyword dict collapses duplicate
keywords, so iteration runs over the first-occurrence deduplication. -/
noncomputable def calculate_score (chunk : Chunk) (keywords : List Str)
    (doc_frequencies : Str → Nat) (total_docs : Nat) : ℝ × List Str :=
  let header := chunk.header.getD []
  let combined_text := header ++ ' ' :: chunk.content
  let tf : Str → Nat := fun kw => countSub (lowerS kw) (lowerS combined_text)
  let matched := (dedupFirst keywords).filter (fun kw => decide (0 < tf kw))
  let termScore : Str → ℝ := fun kw =>
    Real.log (1 + (tf kw : ℝ)) *
      Real.log ((total_docs : ℝ) / (1 + (doc_frequencies kw : ℝ))) *
      (if isSubstr (lowerS kw) (lowerS header) then 2 else 1)
  ((matched.map termScore).sum +
    (if matched = [] then 0 else Real.sqrt (matched.length : ℝ)), matched)

/-- `Ranker.rank`: score every chunk, keep strictly positive scores, sort by
score descending (stably, as Python's `sort` with `reverse=True`), truncate
to `top_n`. -/
noncomputable def rank (top_n : Nat) (chunks : List Chunk)
    (keywords : List Str) : List RankedChunk :=
  if chunks = [] ∨ keywords = [] then []
  else
    let doc_frequencies := docFreq chunks keywords
    let total_docs := chunks.length
    let ranked := chunks.filterMap (fun c =>
      let sm := calculate_score c keywords doc_frequencies total_docs
      if 0 < sm.1 then some (⟨c, sm.1, sm.2⟩ : RankedChunk) else none)
    (ranked.mergeSort (fun a b => decide (b.score ≤ a.score))).take top_n

/-! ## haiku_client.py

The process-wide `_response_cache` dict and `time.time()` are threaded
through `distill` explicitly; the Anthropic API call is a parameter mapping
the prompt to `some extracted_text` (a successful response) or `none` (any
exception: missing key, missing package, or API error).  The md5 digests in
`_get_cache_key` are modelled by the digested material itself. -/

/-- `CACHE_TTL_SECONDS` from haiku_client.py. -/
def CACHE_TTL_SECONDS : Int := 3600

/-- Cache keys: query material and chunk-content material. -/
abbrev CacheKey := Str × Str

/-- The response cache, keyed as in `_response_cache`. -/
def Cache : Type := CacheKey → Option (Str × Int)

/-- `_get_cache_key`: query text plus the concatenated first 100 characters
of each ranked chunk's content (md5 modelled as the material itself). -/
def get_cache_key (query : Str) (chunks : List RankedChunk) : CacheKey :=
  (query, (chunks.map (fun c => c.chunk.content.take 100)).flatten)

/-- `_check_cache`: a hit younger than the TTL is returned; an expired entry
is deleted; returns the lookup result and the possibly-updated cache. -/
def check_cache (key : CacheKey) (cache : Cache) (now : Int) :
    Option Str × Cache :=
  match cache key with
  | some ct =>
    if now - ct.2 < CACHE_TTL_SECONDS then (some ct.1, cache)
    else (none, fun k => if k = key then none else cache k)
  | none => (none, cache)

/-- `_store_cache`. -/
def store_cache (key : CacheKey) (content : Str) (now : Int)
    (cache : Cache) : Cache :=
  fun k => if k = key then some (content, now) else cache k

/-- `DistillationResult` from haiku_client.py. -/
structure DistillationResult where
  content : Str
  query_type : Str
  token_budget : Nat
  cached : Bool
deriving DecidableEq, Repr

/-- The code-example indicator list of `classify_query`. -/
def code_keywords : List Str :=
  [S "example", S "code", S "pattern", S "how to", S "implement",
   S "snippet", S "sample", S "template", S "show me", S "write"]

/-- The complex-analysis indicator list of `classify_query`. -/
def complex_keywords : List Str :=
  [S "explain", S "architecture", S "design", S "complex", S "overview",
   S "understand", S "describe", S "analyze", S "compare", S "difference"]

/-- `classify_query` from haiku_client.py: code-example indicators first,
then complex indicators, otherwise simple. -/
def classify_query (query : Str) : Str :=
  let query_lower := lowerS query
  if code_keywords.any (fun kw => isSubstr kw query_lower) then S "code_example"
  else if complex_keywords.any (fun kw => isSubstr kw query_lower) then S "complex"
  else S "simple"

/-- Python `enumerate(xs, k)`. -/
def enumFrom {α : Type} (k : Nat) : List α → List (Nat × α)
  | [] => []
  | x :: xs => (k, x) :: enumFrom (k + 1) xs

/-- `format_chunks_for_prompt` from haiku_client.py. -/
def format_chunks_for_prompt (ranked_chunks : List RankedChunk) : Str :=
  joinSep (S "\n\n---\n\n") ((enumFrom 1 ranked_chunks).map (fun p =>
    let chunk := p.2.chunk
    (S "[Source " ++ natToStr p.1 ++ S ": " ++ chunk.file_path ++
      (match chunk.header with | some h => S " - " ++ h | none => []) ++
      S ", lines " ++ natToStr chunk.start_line ++ S "-" ++
      natToStr chunk.end_line ++ S "]") ++ '\n' :: chunk.content))

/-- The code-example prompt instructions. -/
def code_example_instructions : Str :=
  S "Instructions for code examples:\n- Include COMPLETE, working code snippets that can be used directly\n- Show the full function or section, not just fragments\n- Include necessary imports or dependencies\n- Add brief comments explaining key parts\n- Reference the source file paths"

/-- The complex-explanation prompt instructions. -/
def complex_instructions : Str :=
  S "Instructions for detailed explanations:\n- Provide comprehensive coverage of the topic\n- Explain the reasoning and context\n- Include relevant code examples where helpful\n- Describe any gotchas or important considerations\n- Reference source files for further reading"

/-- The quick-answer prompt instructions. -/
def simple_instructions : Str :=
  S "Instructions for quick answers:\n- Be concise and direct\n- Focus on the most important information\n- Include specific details (file paths, function names, values)\n- Highlight any critical warnings or gotchas"

/-- The full user prompt built by `distill`. -/
def distill_prompt (query instructions context : Str) (token_budget : Nat) : Str :=
  S "You are a knowledge base assistant for a software development project.\nExtract relevant information to answer the query based on the provided context.\n\nQuery: " ++
    query ++ S "\n\n" ++ instructions ++
    S "\n\nContext from knowledge base:\n" ++ context ++
    S "\n\nProvide a helpful response in up to " ++ natToStr token_budget ++
    S " tokens.\nIf the context doesn\x27t contain relevant information, say so clearly.\nAlways include source file references when citing specific information."

/-- The empty-input short-circuit message of `distill`. -/
def no_info_message : Str := S "No relevant information found in knowledge base."

/-- The empty-response substitute message of `distill`. -/
def no_extract_message : Str :=
  S "No relevant information extracted from knowledge base."

/-- `HaikuDistiller._fallback_response`: raw rendering of the top five
chunks, truncated to 500 characters each, marked not cached. -/
def fallback_response (ranked_chunks : List RankedChunk) (query_type : Str)
    (token_budget : Nat) : DistillationResult :=
  let parts := S "*[Haiku unavailable - showing raw search results]*\n" ::
    (enumFrom 1 (ranked_chunks.take 5)).map (fun p =>
      let chunk := p.2.chunk
      (S "**Source " ++ natToStr p.1 ++ S ":** `" ++ chunk.file_path ++ S "`" ++
        (match chunk.header with | some h => S " - " ++ h | none => [])) ++
        '\n' :: (chunk.content.take 500 ++
          (if 500 < chunk.content.length then S "..." else [])))
  ⟨joinSep (S "\n\n---\n\n") parts, query_type, token_budget, false⟩

/-- The instruction block chosen per query type in `distill`
(code_example, then complex, otherwise the simple instructions). -/
def instructionsOf (query_type : Str) : Str :=
  if query_type = S "code_example" then code_example_instructions
  else if query_type = S "complex" then complex_instructions
  else simple_instructions

/-- Response post-processing in `distill`: strip, then substitute the fixed
message if the stripped text is empty. -/
def distillContent (raw : Str) : Str :=
  if pyStrip raw = [] then no_extract_message else pyStrip raw

/-- The full prompt `distill` sends to the backend for a query and ranked
chunk list. -/
def distillPromptOf (config : HaikuConfig) (query : Str)
    (chunks : List RankedChunk) : Str :=
  distill_prompt query (instructionsOf (classify_query query))
    (format_chunks_for_prompt chunks) (get_token_budget (classify_query query) config)

/-- `HaikuDistiller.distill`: empty-chunk short-circuit, classification and
budget selection, cache lookup (Python's falsy test treats an empty cached
string as a miss), backend invocation, empty-response substitution, cache
store, and fallback on any backend exception.  Returns the result, the cache
after the call, and whether the backend was invoked. -/
def distill (config : HaikuConfig) (query : Str)
    (ranked_chunks : List RankedChunk) (use_cache : Bool) (cache : Cache)
    (now : Int) (backend : Str → Option Str) :
    DistillationResult × Cache × Bool :=
  if ranked_chunks.isEmpty then
    (⟨no_info_message, S "simple", 0, false⟩, cache, false)
  else
    let query_type := classify_query query
    let token_budget := get_token_budget query_type config
    let cache_key := get_cache_key query ranked_chunks
    let lookup := if use_cache then check_cache cache_key cache now else (none, cache)
    let hit := match lookup.1 with
      | some c => if c = [] then none else some c
      | none => none
    match hit with
    | some cached_response =>
      (⟨cached_response, query_type, token_budget, true⟩, lookup.2, false)
    | none =>
      match backend (distillPromptOf config query ranked_chunks) with
      | some raw =>
        let result_content := distillContent raw
        let cache2 := if use_cache then store_cache cache_key result_content now lookup.2
          else lookup.2
        (⟨result_content, query_type, token_budget, false⟩, cache2, true)
      | none => (fallback_response ranked_chunks query_type token_budget, lookup.2, true)

/-! ## Concrete data used by witnesses and counterexamples -/

/-- A small concrete chunk. -/
def sampleChunk : Chunk := ⟨S "f.md", 1, 1, S "hello", none⟩

/-- A concrete ranked chunk (the score plays no role in distillation). -/
noncomputable def sampleRanked : RankedChunk := ⟨sampleChunk, 1, []⟩

/-- The empty cache. -/
def emptyCache : Cache := fun _ => none

/-- A cache holding one entry stored at time 0. -/
def expiredCache : Cache :=
  fun k => if k = (S "k", S "m") then some (S "v", 0) else none

/-- A backend that always answers with text that strips to `ans`. -/
def constBackend : Str → Option Str := fun _ => some (S " ans ")

/-- A search configuration whose two roots are named `r1` and `d1`. -/
def searchCfg : ConfigM :=
  ⟨S "r1", S "d1", defaultKnowledgeBaseConfig, ⟨50, 500, 10⟩⟩

/-- An environment whose ripgrep emits two result lines on every invocation,
regardless of the requested cap. -/
def envOver : SearchEnv :=
  ⟨fun _ => true, fun _ => .success (S "a:1:x\nb:2:y"), fun _ => .success []⟩

/-- An environment where ripgrep succeeds with one hit on the root `r1` and
raises a not-found condition on every other invocation, while grep always
succeeds with empty output. -/
def envFb : SearchEnv :=
  ⟨fun _ => true,
   fun cmd => if cmd.getLast? = some (S "r1") then
     .success (S "r1:1:abc hit") else .notFound,
   fun _ => .success []⟩

/-- An environment where both tools always succeed with empty output. -/
def envEmptyOk : SearchEnv :=
  ⟨fun _ => true, fun _ => .success [], fun _ => .success []⟩

/-- An environment where both tool binaries are missing. -/
def envAllNotFound : SearchEnv :=
  ⟨fun _ => true, fun _ => .notFound, fun _ => .notFound⟩

/-- An environment where ripgrep is missing but grep succeeds (with empty
output). -/
def envRgMissing : SearchEnv :=
  ⟨fun _ => true, fun _ => .notFound, fun _ => .success []⟩

/-- Ranking counterexample data: a chunk containing both query keywords once
each, with no header. -/
def chA : Chunk := ⟨S "fa", 1, 1, S "alpha beta", none⟩

/-- A chunk containing only the keyword `alpha`, three times across header
and content, with the keyword in its header. -/
def chB : Chunk := ⟨S "fb", 1, 1, S "alpha alpha", some (S "alpha")⟩

/-- A chunk containing only `beta` (to equalize document frequencies). -/
def chC : Chunk := ⟨S "fc", 1, 1, S "beta", none⟩

/-- A filler chunk containing neither keyword. -/
def chF : Chunk := ⟨S "ff", 1, 1, S "filler", none⟩

/-- The candidate set for the ranking counterexample: 19 chunks, both
keywords with document frequency 2. -/
def c6Chunks : List Chunk := chA :: chB :: chC :: List.replicate 16 chF

/-- The two query keywords of the ranking scenarios. -/
def c6Kws : List Str := [S "alpha", S "beta"]

/-- Witness data: a chunk containing only `alpha`, once, with no header. -/
def chB2 : Chunk := ⟨S "fb", 1, 1, S "alpha", none⟩

/-- The witness candidate set: both keywords have document frequency 2. -/
def c6WChunks : List Chunk := [chA, chB2, chC]

/-! ## Character-level lemmas -/

/-! ## Character-level lemmas -/

theorem toNat_ofNat_of_lt {n : Nat} (h : n < 55296) : (Char.ofNat n).toNat = n := by
  rw [Char.ofNat, dif_pos (Or.inl h)]
  rfl

theorem toNat_toLower_of_upper {c : Char} (h : 65 ≤ c.toNat ∧ c.toNat ≤ 90) :
    (Char.toLower c).toNat = c.toNat + 32 := by
  show (if c.toNat ≥ 65 ∧ c.toNat ≤ 90 then Char.ofNat (c.toNat + 32) else c).toNat = _
  rw [if_pos h]
  exact toNat_ofNat_of_lt (by omega)

theorem toLower_of_not_upper {c : Char} (h : ¬(65 ≤ c.toNat ∧ c.toNat ≤ 90)) :
    Char.toLower c = c := by
  show (if c.toNat ≥ 65 ∧ c.toNat ≤ 90 then Char.ofNat (c.toNat + 32) else c) = c
  rw [if_neg h]

theorem toLower_toLower (c : Char) : c.toLower.toLower = c.toLower := by
  by_cases h : 65 ≤ c.toNat ∧ c.toNat ≤ 90
  · have h1 := toNat_toLower_of_upper h
    exact toLower_of_not_upper (by omega)
  · rw [toLower_of_not_upper h, toLower_of_not_upper h]

theorem toLower_fixed_of_mem_lowerS {c : Char} {s : Str} (h : c ∈ lowerS s) :
    c.toLower = c := by
  obtain ⟨d, _, rfl⟩ := List.mem_map.mp h
  exact toLower_toLower d

/-! ## Tokenizer lemmas -/

theorem runs_sep {b : Char} (hb : wordChar b = false) (t : Str) :
    runs (b :: t) = runs t := by
  cases t <;> simp [runs, hb]

theorem runs_all_word {w : Str} (hw : ∀ c ∈ w, wordChar c = true) (hne : w ≠ []) :
    runs w = [w] := by
  induction w with
  | nil => exact absurd rfl hne
  | cons x w ih =>
    cases w with
    | nil => simp [runs, hw x (by simp)]
    | cons y w' =>
      have hy : wordChar y = true := hw y (by simp)
      have : runs (y :: w') = [y :: w'] := ih (fun c hc => hw c (by simp [hc])) (by simp)
      simp [runs, hw x (by simp), hy, this]

theorem runs_word_append {w : Str} {b : Char} (hw : ∀ c ∈ w, wordChar c = true)
    (hne : w ≠ []) (hb : wordChar b = false) (t : Str) :
    runs (w ++ b :: t) = w :: runs t := by
  induction w with
  | nil => exact absurd rfl hne
  | cons x w ih =>
    cases w with
    | nil => simp [runs, hw x (by simp), hb, runs_sep hb]
    | cons y w' =>
      have hy : wordChar y = true := hw y (by simp)
      have hrec : runs ((y :: w') ++ b :: t) = (y :: w') :: runs t :=
        ih (fun c hc => hw c (by simp [hc])) (by simp)
      simp only [List.cons_append] at hrec ⊢
      simp [runs, hw x (by simp), hy, hrec]

theorem runs_spec (s : Str) : ∀ w ∈ runs s, w ≠ [] ∧ ∀ c ∈ w, wordChar c = true ∧ c ∈ s := by
  induction s using runs.induct with
  | case1 => simp [runs]
  | case2 c hc =>
    intro w hw
    simp [runs, hc] at hw
    subst hw
    simp [hc]
  | case3 c hc =>
    intro w hw
    simp [runs, hc] at hw
  | case4 c d cs hc hd r rs hrec ih =>
    intro w hw
    rw [runs, if_pos hc, if_pos hd, hrec] at hw
    rcases List.mem_cons.mp hw with h | h
    · subst h
      have := ih r (by rw [hrec]; exact List.mem_cons_self _ _)
      refine ⟨by simp, ?_⟩
      intro a ha
      rcases List.mem_cons.mp ha with rfl | ha'
      · exact ⟨hc, by simp⟩
      · obtain ⟨_, h2⟩ := this
        obtain ⟨ha1, ha2⟩ := h2 a ha'
        exact ⟨ha1, by simp [List.mem_cons.mp ha2]⟩
    · have := ih w (by rw [hrec]; exact List.mem_cons_of_mem _ h)
      obtain ⟨h1, h2⟩ := this
      refine ⟨h1, fun a ha => ?_⟩
      obtain ⟨ha1, ha2⟩ := h2 a ha
      exact ⟨ha1, by simp [List.mem_cons.mp ha2]⟩
  | case5 c d cs hc hd hrec ih =>
    intro w hw
    rw [runs, if_pos hc, if_pos hd, hrec] at hw
    simp at hw
    subst hw
    exact ⟨by simp, by intro a ha; simp at ha; subst ha; simp [hc]⟩
  | case6 c d cs hc hd ih =>
    intro w hw
    rw [runs, if_pos hc, if_neg hd] at hw
    rcases List.mem_cons.mp hw with h | h
    · subst h
      exact ⟨by simp, by intro a ha; simp at ha; subst ha; simp [hc]⟩
    · obtain ⟨h1, h2⟩ := ih w h
      exact ⟨h1, fun a ha => ⟨(h2 a ha).1, List.mem_cons_of_mem _ (h2 a ha).2⟩⟩
  | case7 c d cs hc ih =>
    intro w hw
    rw [runs, if_neg hc] at hw
    obtain ⟨h1, h2⟩ := ih w hw
    exact ⟨h1, fun a ha => ⟨(h2 a ha).1, List.mem_cons_of_mem _ (h2 a ha).2⟩⟩

theorem mem_tokenize {w : Str} {s : Str} (h : w ∈ tokenize s) :
    w ∈ runs s ∧ startsIdent w = true := by
  have := List.mem_filter.mp h
  exact ⟨this.1, this.2⟩

theorem runs_joinSpace {ws : List Str}
    (h : ∀ w ∈ ws, w ≠ [] ∧ (∀ c ∈ w, wordChar c = true)) :
    runs (joinSep [' '] ws) = ws := by
  induction ws with
  | nil => simp [joinSep, runs]
  | cons w ws ih =>
    cases ws with
    | nil =>
      obtain ⟨h1, h2⟩ := h w (by simp)
      simp [joinSep, runs_all_word h2 h1]
    | cons v vs =>
      obtain ⟨h1, h2⟩ := h w (by simp)
      have hrest : runs (joinSep [' '] (v :: vs)) = v :: vs :=
        ih (fun u hu => h u (by simp [hu]))
      have : w ++ [' '] ++ joinSep [' '] (v :: vs) = w ++ ' ' :: joinSep [' '] (v :: vs) := by
        simp
      rw [joinSep, this, runs_word_append h2 h1 (by decide), hrest]

theorem tokenize_joinSpace {ws : List Str}
    (h : ∀ w ∈ ws, w ≠ [] ∧ (∀ c ∈ w, wordChar c = true) ∧ startsIdent w = true) :
    tokenize (joinSep [' '] ws) = ws := by
  rw [tokenize, runs_joinSpace (fun w hw => ⟨(h w hw).1, (h w hw).2.1⟩)]
  exact List.filter_eq_self.mpr (fun w hw => (h w hw).2.2)

/-! ## Deduplication lemmas -/

theorem dfa_sublist : ∀ (l seen : List Str), List.Sublist (dedupFirstAux l seen) l := by
  intro l
  induction l with
  | nil => intro seen; simp [dedupFirstAux]
  | cons w ws ih =>
    intro seen
    rw [dedupFirstAux]
    by_cases h : w ∈ seen
    · rw [if_pos h]; exact (ih seen).cons w
    · rw [if_neg h]; exact (ih (w :: seen)).cons₂ w

theorem dfa_mem : ∀ (l seen : List Str) (x : Str),
    x ∈ dedupFirstAux l seen ↔ x ∈ l ∧ x ∉ seen := by
  intro l
  induction l with
  | nil => intro seen x; simp [dedupFirstAux]
  | cons w ws ih =>
    intro seen x
    rw [dedupFirstAux]
    by_cases h : w ∈ seen
    · rw [if_pos h, ih]
      constructor
      · rintro ⟨h1, h2⟩; exact ⟨List.mem_cons_of_mem _ h1, h2⟩
      · rintro ⟨h1, h2⟩
        rcases List.mem_cons.mp h1 with rfl | h1'
        · exact absurd h h2
        · exact ⟨h1', h2⟩
    · rw [if_neg h]
      constructor
      · intro hx
        rcases List.mem_cons.mp hx with rfl | hx'
        · exact ⟨List.mem_cons_self _ _, h⟩
        · obtain ⟨h1, h2⟩ := (ih _ _).mp hx'
          exact ⟨List.mem_cons_of_mem _ h1, fun hc => h2 (List.mem_cons_of_mem _ hc)⟩
      · rintro ⟨h1, h2⟩
        rcases List.mem_cons.mp h1 with rfl | h1'
        · exact List.mem_cons_self _ _
        · by_cases hx : x = w
          · subst hx; exact List.mem_cons_self _ _
          · exact List.mem_cons_of_mem _
              ((ih _ _).mpr ⟨h1', by simp [hx, h2]⟩)

theorem dfa_nodup : ∀ (l seen : List Str), (dedupFirstAux l seen).Nodup := by
  intro l
  induction l with
  | nil => intro seen; simp [dedupFirstAux]
  | cons w ws ih =>
    intro seen
    rw [dedupFirstAux]
    by_cases h : w ∈ seen
    · rw [if_pos h]; exact ih seen
    · rw [if_neg h]
      refine List.nodup_cons.mpr ⟨fun hc => ?_, ih _⟩
      exact ((dfa_mem _ _ _).mp hc).2 (List.mem_cons_self _ _)

theorem dfa_eq_self : ∀ (l seen : List Str), l.Nodup → (∀ x ∈ l, x ∉ seen) →
    dedupFirstAux l seen = l := by
  intro l
  induction l with
  | nil => intro seen _ _; rfl
  | cons w ws ih =>
    intro seen hnd hs
    rw [dedupFirstAux, if_neg (hs w (List.mem_cons_self _ _))]
    congr 1
    refine ih _ (List.nodup_cons.mp hnd).2 (fun x hx => ?_)
    intro hc
    rcases List.mem_cons.mp hc with rfl | hc'
    · exact (List.nodup_cons.mp hnd).1 hx
    · exact hs x (List.mem_cons_of_mem _ hx) hc'

/-! ## extract_keywords lemmas -/

theorem extract_keywords_mem {q w : Str} (h : w ∈ extract_keywords q) :
    w ∈ tokenize (lowerS q) ∧ keepWord w = true := by
  rw [extract_keywords, dedupFirst] at h
  have := ((dfa_mem _ _ _).mp h).1
  exact ⟨(List.mem_filter.mp this).1, (List.mem_filter.mp this).2⟩

theorem extract_keywords_nodup (q : Str) : (extract_keywords q).Nodup :=
  dfa_nodup _ _

theorem extract_keywords_sublist (q : Str) :
    List.Sublist (extract_keywords q) (tokenize (lowerS q)) :=
  (dfa_sublist _ _).trans (List.filter_sublist _)

theorem lowerS_fixed {w : Str} (h : ∀ c ∈ w, c.toLower = c) : lowerS w = w :=
  (List.map_congr_left h).trans (List.map_id w)

theorem lowerS_joinSpace {ws : List Str} (h : ∀ w ∈ ws, ∀ c ∈ w, c.toLower = c) :
    lowerS (joinSep [' '] ws) = joinSep [' '] ws := by
  induction ws with
  | nil => rfl
  | cons w vs ih =>
    cases vs with
    | nil => exact lowerS_fixed (fun c hc => h w (by simp) c hc)
    | cons v vs' =>
      rw [joinSep, lowerS, List.map_append, List.map_append]
      rw [show List.map Char.toLower w = lowerS w from rfl,
        show List.map Char.toLower (joinSep [' '] (v :: vs')) =
          lowerS (joinSep [' '] (v :: vs')) from rfl]
      rw [lowerS_fixed (fun c hc => h w (by simp) c hc),
        ih (fun u hu => h u (by simp [hu])),
        show List.map Char.toLower [' '] = [' '] by decide]

/-- C9: every keyword produced by `extract_keywords` is a nonempty
lowercase-stable word-identifier token that survives the stop-word and length
filters. -/
theorem extract_keywords_token_props {q : Str} :
    ∀ w ∈ extract_keywords q,
      w ≠ [] ∧ (∀ c ∈ w, wordChar c = true) ∧ startsIdent w = true ∧
        (∀ c ∈ w, c.toLower = c) ∧ keepWord w = true := by
  intro w hw
  obtain ⟨htok, hkeep⟩ := extract_keywords_mem hw
  obtain ⟨hruns, hstart⟩ := mem_tokenize htok
  obtain ⟨hne, hcs⟩ := runs_spec _ _ hruns
  exact ⟨hne, fun c hc => (hcs c hc).1, hstart,
    fun c hc => toLower_fixed_of_mem_lowerS (hcs c hc).2, hkeep⟩

/-- C9: applying `extract_keywords` to the space-joined output of
`extract_keywords` yields the same keyword list: the tokens come back
unchanged from tokenization of the joined string, the filters all pass, and
deduplication is the identity on an already-duplicate-free list. -/
theorem c9_extract_keywords_idempotent (q : Str) :
    extract_keywords (joinSep [' '] (extract_keywords q)) = extract_keywords q := by
  have hp := extract_keywords_token_props (q := q)
  rw [extract_keywords,
    lowerS_joinSpace (fun w hw => (hp w hw).2.2.2.1),
    tokenize_joinSpace (fun w hw => ⟨(hp w hw).1, (hp w hw).2.1, (hp w hw).2.2.1⟩),
    List.filter_eq_self.mpr (fun w hw => (hp w hw).2.2.2.2),
    dedupFirst, dfa_eq_self _ _ (extract_keywords_nodup q) (by simp)]

/-- C5: `extract_keywords` returns only lowercased word-identifier tokens of
the input that are neither stop words nor of length at most two, without
duplicates and in first-occurrence order (a sublist of the token stream); the
spec's example query extracts `["add", "new", "option"]`; empty input and
all-stop-word input yield the empty list. -/
theorem c5_extract_keywords_contract :
    (∀ q w : Str, w ∈ extract_keywords q →
        w ∉ STOP_WORDS ∧ 2 < w.length ∧ w ∈ tokenize (lowerS q)) ∧
    (∀ q : Str, (extract_keywords q).Nodup ∧
        List.Sublist (extract_keywords q) (tokenize (lowerS q))) ∧
    extract_keywords (S "How do I add a new option?") = [S "add", S "new", S "option"] ∧
    extract_keywords (S "") = [] ∧
    (∀ q : Str, (∀ w ∈ tokenize (lowerS q), w ∈ STOP_WORDS) →
        extract_keywords q = []) := by
  refine ⟨?_, fun q => ⟨extract_keywords_nodup q, extract_keywords_sublist q⟩,
    by decide, by decide, ?_⟩
  · intro q w hw
    obtain ⟨ht, hk⟩ := extract_keywords_mem hw
    simp only [keepWord, Bool.and_eq_true, decide_eq_true_eq] at hk
    exact ⟨hk.1, hk.2, ht⟩
  · intro q h
    rw [extract_keywords]
    have hnil : (tokenize (lowerS q)).filter keepWord = [] := by
      rw [List.filter_eq_nil_iff]
      intro w hw
      simp [keepWord, h w hw]
    rw [hnil]
    rfl

/-- C5 witness: concrete instantiation at the spec's example query: the token
`add` is produced, is not a stop word, has length above two, and is a token of
the lowercased input. -/
theorem c5_extract_keywords_contract_witness :
    S "add" ∉ STOP_WORDS ∧ 2 < (S "add").length ∧
      S "add" ∈ tokenize (lowerS (S "How do I add a new option?")) :=
  c5_extract_keywords_contract.1 (S "How do I add a new option?") (S "add") (by decide)

/-! ## splitNl lemmas -/

theorem splitNl_ne_nil (s : Str) : splitNl s ≠ [] := by
  cases s with
  | nil => simp [splitNl]
  | cons c cs =>
    rw [splitNl]
    split
    · simp
    · split <;> simp

theorem splitNl_no_newline (s : Str) : ∀ r ∈ splitNl s, '\n' ∉ r := by
  induction s with
  | nil => simp [splitNl]
  | cons c cs ih =>
    intro r hr
    rw [splitNl] at hr
    by_cases hc : c = '\n'
    · rw [if_pos hc] at hr
      rcases List.mem_cons.mp hr with rfl | hr'
      · simp
      · exact ih r hr'
    · rw [if_neg hc] at hr
      cases hsp : splitNl cs with
      | nil => exact absurd hsp (splitNl_ne_nil cs)
      | cons r0 rs =>
        simp only [hsp] at hr
        rcases List.mem_cons.mp hr with rfl | hr'
        · intro hmem
          rcases List.mem_cons.mp hmem with h | h
          · exact hc h.symm
          · exact ih r0 (hsp ▸ List.mem_cons_self _ _) h
        · exact ih r (hsp ▸ List.mem_cons_of_mem _ hr')

theorem splitNl_of_no_newline {s : Str} (h : '\n' ∉ s) : splitNl s = [s] := by
  induction s with
  | nil => rfl
  | cons c cs ih =>
    rw [splitNl, if_neg (fun hc => h (by rw [← hc]; exact List.mem_cons_self _ _)),
      ih (fun hm => h (List.mem_cons_of_mem _ hm))]

theorem splitNl_append_newline {x : Str} (h : '\n' ∉ x) (t : Str) :
    splitNl (x ++ '\n' :: t) = x :: splitNl t := by
  induction x with
  | nil => simp [splitNl]
  | cons c cs ih =>
    rw [List.cons_append, splitNl,
      if_neg (fun hc => h (by rw [← hc]; exact List.mem_cons_self _ _)),
      ih (fun hm => h (List.mem_cons_of_mem _ hm))]

theorem splitNl_joinNl {ss : List Str} (hne : ss ≠ [])
    (h : ∀ r ∈ ss, '\n' ∉ r) : splitNl (joinSep ['\n'] ss) = ss := by
  induction ss with
  | nil => exact absurd rfl hne
  | cons x ss ih =>
    cases ss with
    | nil => exact splitNl_of_no_newline (h x (by simp))
    | cons y ss' =>
      rw [joinSep,
        show x ++ ['\n'] ++ joinSep ['\n'] (y :: ss') =
          x ++ '\n' :: joinSep ['\n'] (y :: ss') by simp,
        splitNl_append_newline (h x (by simp)),
        ih (by simp) (fun r hr => h r (by simp [hr]))]

/-! ## collectMarks and buildChunks lemmas -/

theorem collectMarksAux_spec (f : Str → Option Str) :
    ∀ (ls : List Str) (k : Nat),
      (∀ m ∈ collectMarksAux f k ls,
        k ≤ m.1 ∧ m.1 < k + ls.length ∧ f (ls.getD (m.1 - k) []) = some m.2) ∧
      (collectMarksAux f k ls).Pairwise (fun a b => a.1 < b.1) := by
  intro ls
  induction ls with
  | nil => intro k; simp [collectMarksAux]
  | cons l ls ih =>
    intro k
    rw [collectMarksAux]
    have getshift : ∀ (n : Nat), k + 1 ≤ n →
        (l :: ls).getD (n - k) [] = ls.getD (n - (k + 1)) [] := by
      intro n hn
      rw [show n - k = (n - (k + 1)) + 1 by omega]
      rfl
    cases hf : f l with
    | none =>
      obtain ⟨ih1, ih2⟩ := ih (k + 1)
      refine ⟨fun m hm => ?_, ih2⟩
      obtain ⟨h1, h2, h3⟩ := ih1 m hm
      exact ⟨by omega, by simp only [List.length_cons]; omega,
        (getshift m.1 h1).symm ▸ h3⟩
    | some t =>
      obtain ⟨ih1, ih2⟩ := ih (k + 1)
      constructor
      · intro m hm
        rcases List.mem_cons.mp hm with rfl | hm'
        · refine ⟨le_refl _, by simp, ?_⟩
          simp [hf]
        · obtain ⟨h1, h2, h3⟩ := ih1 m hm'
          exact ⟨by omega, by simp only [List.length_cons]; omega,
            (getshift m.1 h1).symm ▸ h3⟩
      · refine List.pairwise_cons.mpr ⟨fun m hm => ?_, ih2⟩
        exact lt_of_lt_of_le (Nat.lt_succ_self k) (ih1 m hm).1

theorem sectionEnd_bounds {lines : List Str} {i : Nat} {t : Str}
    {rest : List (Nat × Str)}
    (hpw : List.Pairwise (fun a b => a.1 < b.1) ((i, t) :: rest))
    (hbound : ∀ m ∈ (i, t) :: rest, m.1 < lines.length) :
    i ≤ sectionEnd lines rest ∧ sectionEnd lines rest < lines.length := by
  have hi : i < lines.length := hbound (i, t) (List.mem_cons_self _ _)
  cases rest with
  | nil => rw [sectionEnd]; omega
  | cons m' rest' =>
    obtain ⟨j, u⟩ := m'
    have h1 : i < j := (List.pairwise_cons.mp hpw).1 (j, u) (List.mem_cons_self _ _)
    have h2 : j < lines.length := hbound (j, u)
      (List.mem_cons_of_mem _ (List.mem_cons_self _ _))
    rw [sectionEnd]
    omega

theorem buildChunks_spec (fp : Str) (lines : List Str) (skipEmpty : Bool)
    (mkHeader : Str → Str) :
    ∀ (marks : List (Nat × Str)),
      marks.Pairwise (fun a b => a.1 < b.1) →
      (∀ m ∈ marks, m.1 < lines.length) →
      (∀ l ∈ lines, '\n' ∉ l) →
      (∀ c ∈ buildChunks fp lines skipEmpty mkHeader marks,
        (∃ m ∈ marks, c.start_line = m.1 + 1 ∧ c.header = some (mkHeader m.2)) ∧
        1 ≤ c.start_line ∧ c.start_line ≤ c.end_line ∧
        c.end_line ≤ lines.length ∧
        splitNl c.content =
          (lines.drop (c.start_line - 1)).take
            (c.end_line + 1 - c.start_line)) ∧
      (buildChunks fp lines skipEmpty mkHeader marks).Pairwise
        (fun a b => a.end_line < b.start_line) := by
  intro marks
  induction marks with
  | nil => intro _ _ _; simp [buildChunks]
  | cons m rest ih =>
    intro hpw hbound hnl
    obtain ⟨i, t⟩ := m
    obtain ⟨ihmem, ihpw⟩ := ih (List.pairwise_cons.mp hpw).2
      (fun x hx => hbound x (List.mem_cons_of_mem _ hx)) hnl
    have hi : i < lines.length := hbound (i, t) (List.mem_cons_self _ _)
    obtain ⟨hEnd1, hEnd2⟩ := sectionEnd_bounds hpw hbound
    have hseclen : ((lines.drop i).take (sectionEnd lines rest + 1 - i)).length =
        sectionEnd lines rest + 1 - i := by
      rw [List.length_take, List.length_drop]
      omega
    have hsecne : (lines.drop i).take (sectionEnd lines rest + 1 - i) ≠ [] := by
      apply List.ne_nil_of_length_pos
      rw [hseclen]
      omega
    have hsecnl : ∀ r ∈ (lines.drop i).take (sectionEnd lines rest + 1 - i),
        '\n' ∉ r :=
      fun r hr => hnl r (List.drop_subset _ _ (List.take_subset _ _ hr))
    have hsplit : splitNl (sectionContent lines i rest) =
        (lines.drop i).take (sectionEnd lines rest + 1 - i) := by
      rw [sectionContent, splitNl_joinNl hsecne hsecnl]
    have hrestlb : ∀ b ∈ buildChunks fp lines skipEmpty mkHeader rest,
        sectionEnd lines rest + 1 < b.start_line := by
      intro b hb
      obtain ⟨⟨m', hm', hstart, _⟩, _⟩ := ihmem b hb
      cases rest with
      | nil => exact absurd hm' (List.not_mem_nil _)
      | cons m0 rest' =>
        obtain ⟨j, u⟩ := m0
        have hij : i < j :=
          (List.pairwise_cons.mp hpw).1 (j, u) (List.mem_cons_self _ _)
        have hj : ∀ x ∈ rest', j < x.1 :=
          (List.pairwise_cons.mp (List.pairwise_cons.mp hpw).2).1
        have hjm : j ≤ m'.1 := by
          rcases List.mem_cons.mp hm' with rfl | hm''
          · exact le_refl _
          · exact le_of_lt (hj m' hm'')
        rw [sectionEnd]
        omega
    constructor
    · intro c hc
      simp only [buildChunks] at hc
      rcases List.mem_append.mp hc with hin | hin
      · have hcc : c = ⟨fp, i + 1, sectionEnd lines rest + 1,
            sectionContent lines i rest, some (mkHeader t)⟩ := by
          by_cases hskip : (skipEmpty &&
              decide (pyStrip (sectionContent lines i rest) = [])) = true
          · rw [if_pos hskip] at hin
            exact absurd hin (List.not_mem_nil _)
          · rw [if_neg hskip] at hin
            simpa using hin
        subst hcc
        refine ⟨⟨(i, t), List.mem_cons_self _ _, rfl, rfl⟩, ?_, ?_, ?_, ?_⟩
        · show 1 ≤ i + 1
          omega
        · show i + 1 ≤ sectionEnd lines rest + 1
          omega
        · show sectionEnd lines rest + 1 ≤ lines.length
          omega
        · show splitNl (sectionContent lines i rest) =
            List.take (sectionEnd lines rest + 1 + 1 - (i + 1))
              (List.drop (i + 1 - 1) lines)
          rw [hsplit,
            show sectionEnd lines rest + 1 + 1 - (i + 1) =
              sectionEnd lines rest + 1 - i by omega,
            show i + 1 - 1 = i by omega]
      · obtain ⟨⟨m', hm', hrest⟩, hprops⟩ := ihmem c hin
        exact ⟨⟨m', List.mem_cons_of_mem _ hm', hrest⟩, hprops⟩
    · simp only [buildChunks]
      rw [List.pairwise_append]
      refine ⟨?_, ihpw, ?_⟩
      · by_cases hskip : (skipEmpty &&
            decide (pyStrip (sectionContent lines i rest) = [])) = true
        · rw [if_pos hskip]; exact List.Pairwise.nil
        · rw [if_neg hskip]; simp
      · intro a ha b hb
        have hb' := hrestlb b hb
        have ha' : a = ⟨fp, i + 1, sectionEnd lines rest + 1,
            sectionContent lines i rest, some (mkHeader t)⟩ := by
          by_cases hskip : (skipEmpty &&
              decide (pyStrip (sectionContent lines i rest) = [])) = true
          · rw [if_pos hskip] at ha
            exact absurd ha (List.not_mem_nil _)
          · rw [if_neg hskip] at ha
            simpa using ha
        rw [ha']
        show sectionEnd lines rest + 1 < b.start_line
        omega

theorem collectMarks_pairwise (f : Str → Option Str) (lines : List Str) :
    (collectMarks f lines).Pairwise (fun a b => a.1 < b.1) :=
  (collectMarksAux_spec f lines 0).2

theorem collectMarks_bound (f : Str → Option Str) (lines : List Str) :
    ∀ m ∈ collectMarks f lines, m.1 < lines.length := by
  intro m hm
  have := ((collectMarksAux_spec f lines 0).1 m hm).2.1
  omega

theorem collectMarks_matches (f : Str → Option Str) (lines : List Str) :
    ∀ m ∈ collectMarks f lines, f (lines.getD m.1 []) = some m.2 := by
  intro m hm
  have := ((collectMarksAux_spec f lines 0).1 m hm).2.2
  simpa using this

theorem whole_chunkInvariants (content fp : Str) :
    chunkInvariants [⟨fp, 1, (splitNl content).length, content, none⟩] content := by
  constructor
  · intro c hc
    simp only [List.mem_singleton] at hc
    subst hc
    have hlen : 1 ≤ (splitNl content).length :=
      List.length_pos.mpr (splitNl_ne_nil content)
    refine ⟨le_refl _, hlen, le_refl _, ?_, ?_⟩
    · show splitNl content = ((splitNl content).drop (1 - 1)).take
        ((splitNl content).length + 1 - 1)
      rw [show (1 : Nat) - 1 = 0 from rfl, List.drop_zero,
        Nat.add_sub_cancel, List.take_length]
    · show (splitNl content).length = (splitNl content).length + 1 - 1
      omega
  · simp

theorem buildChunks_chunkInvariants (content fp : Str) (skipEmpty : Bool)
    (mkHeader : Str → Str) (f : Str → Option Str) :
    chunkInvariants (buildChunks fp (splitNl content) skipEmpty mkHeader
      (collectMarks f (splitNl content))) content := by
  obtain ⟨hmem, hpw⟩ := buildChunks_spec fp (splitNl content) skipEmpty mkHeader
    (collectMarks f (splitNl content)) (collectMarks_pairwise f _)
    (collectMarks_bound f _) (splitNl_no_newline content)
  constructor
  · intro c hc
    obtain ⟨_, h1, h2, h3, h4⟩ := hmem c hc
    refine ⟨h1, h2, h3, h4, ?_⟩
    rw [h4, List.length_take, List.length_drop]
    omega
  · exact hpw

/-! ## C4: chunk line invariants -/

/-- C4: for every segmentation pass (markdown, code with any per-language
matcher, and the whole-file fallback), every produced chunk satisfies
`start_line ≥ 1`, `end_line ≥ start_line`, `end_line ≤` number of file lines,
its content splits on newlines into exactly the source lines
`[start_line, end_line]` (hence exactly `end_line - start_line + 1` of them),
and the chunks of one pass are pairwise non-overlapping and ordered by
`start_line`. -/
theorem c4_chunk_line_invariants (content fp : Str) (pattern : Str → Option Str) :
    chunkInvariants (chunk_markdown content fp) content ∧
    chunkInvariants (chunk_code content fp pattern) content ∧
    chunkInvariants [chunk_whole_file content fp] content := by
  refine ⟨?_, ?_, whole_chunkInvariants content fp⟩
  · simp only [chunk_markdown]
    split
    · exact whole_chunkInvariants content fp
    · exact buildChunks_chunkInvariants content fp true (fun t => t) mdHeaderMatch
  · simp only [chunk_code]
    split
    · exact whole_chunkInvariants content fp
    · exact buildChunks_chunkInvariants content fp false
        (fun name => S "function " ++ name) pattern

/-- C4 witness: the single chunk produced for the two-line document
`# T\nbody` satisfies all the line invariants. -/
theorem c4_chunk_line_invariants_witness :
    1 ≤ (Chunk.mk (S "f") 1 2 (S "# T\nbody") (some (S "T"))).start_line ∧
    (Chunk.mk (S "f") 1 2 (S "# T\nbody") (some (S "T"))).start_line ≤
      (Chunk.mk (S "f") 1 2 (S "# T\nbody") (some (S "T"))).end_line ∧
    (Chunk.mk (S "f") 1 2 (S "# T\nbody") (some (S "T"))).end_line ≤
      (splitNl (S "# T\nbody")).length ∧
    splitNl (Chunk.mk (S "f") 1 2 (S "# T\nbody") (some (S "T"))).content =
      ((splitNl (S "# T\nbody")).drop
        ((Chunk.mk (S "f") 1 2 (S "# T\nbody") (some (S "T"))).start_line - 1)).take
        ((Chunk.mk (S "f") 1 2 (S "# T\nbody") (some (S "T"))).end_line + 1 -
          (Chunk.mk (S "f") 1 2 (S "# T\nbody") (some (S "T"))).start_line) ∧
    (splitNl (Chunk.mk (S "f") 1 2 (S "# T\nbody") (some (S "T"))).content).length =
      (Chunk.mk (S "f") 1 2 (S "# T\nbody") (some (S "T"))).end_line + 1 -
        (Chunk.mk (S "f") 1 2 (S "# T\nbody") (some (S "T"))).start_line :=
  (c4_chunk_line_invariants (S "# T\nbody") (S "f") (fun _ => none)).1.1
    (Chunk.mk (S "f") 1 2 (S "# T\nbody") (some (S "T"))) (by decide)

/-! ## C10: markdown chunks start at heading lines -/

/-- C10: when a markdown document has at least one heading, every chunk of
`chunk_markdown` starts exactly at a heading line (its `start_line` is the
heading's 1-indexed line, its `header` the heading's title, and the heading
matcher accepts that source line), so every line strictly before the first
heading lies in no chunk: the segmentation does not cover those lines. -/
theorem c10_markdown_chunks_start_at_headings (content fp : Str) :
    collectMarks mdHeaderMatch (splitNl content) ≠ [] →
    (∀ c ∈ chunk_markdown content fp,
      ∃ m ∈ collectMarks mdHeaderMatch (splitNl content),
        c.start_line = m.1 + 1 ∧ c.header = some m.2 ∧
        mdHeaderMatch ((splitNl content).getD m.1 []) = some m.2) ∧
    (∀ m0 ∈ (collectMarks mdHeaderMatch (splitNl content)).head?,
      (∀ c ∈ chunk_markdown content fp, m0.1 + 1 ≤ c.start_line) ∧
      (∀ ln : Nat, ln ≤ m0.1 → ∀ c ∈ chunk_markdown content fp,
        ¬(c.start_line ≤ ln ∧ ln ≤ c.end_line))) := by
  intro hne
  have hchunks : chunk_markdown content fp =
      buildChunks fp (splitNl content) true (fun t => t)
        (collectMarks mdHeaderMatch (splitNl content)) := by
    simp only [chunk_markdown, if_neg hne]
  obtain ⟨hmem, _⟩ := buildChunks_spec fp (splitNl content) true (fun t => t)
    (collectMarks mdHeaderMatch (splitNl content))
    (collectMarks_pairwise _ _) (collectMarks_bound _ _)
    (splitNl_no_newline content)
  have hstart : ∀ c ∈ chunk_markdown content fp,
      ∃ m ∈ collectMarks mdHeaderMatch (splitNl content),
        c.start_line = m.1 + 1 ∧ c.header = some m.2 ∧
        mdHeaderMatch ((splitNl content).getD m.1 []) = some m.2 := by
    intro c hc
    rw [hchunks] at hc
    obtain ⟨⟨m, hm, h1, h2⟩, _⟩ := hmem c hc
    exact ⟨m, hm, h1, h2, collectMarks_matches _ _ m hm⟩
  refine ⟨hstart, ?_⟩
  intro m0 hm0
  have hmin : ∀ m ∈ collectMarks mdHeaderMatch (splitNl content), m0.1 ≤ m.1 := by
    cases hmarks : collectMarks mdHeaderMatch (splitNl content) with
    | nil => exact absurd hmarks hne
    | cons a tl =>
      rw [hmarks, List.head?_cons, Option.mem_some_iff] at hm0
      subst hm0
      intro m hm
      rcases List.mem_cons.mp hm with rfl | hm'
      · exact le_refl _
      · have := collectMarks_pairwise mdHeaderMatch (splitNl content)
        rw [hmarks] at this
        exact le_of_lt ((List.pairwise_cons.mp this).1 m hm')
  have hge : ∀ c ∈ chunk_markdown content fp, m0.1 + 1 ≤ c.start_line := by
    intro c hc
    obtain ⟨m, hm, h1, _⟩ := hstart c hc
    have := hmin m hm
    omega
  refine ⟨hge, ?_⟩
  intro ln hln c hc hcontra
  have := hge c hc
  omega

/-- C10 witness: for the document `intro\n# A\nbody` (one heading on line 2),
the produced chunk starts at line 2, so line 1 lies below every chunk
start. -/
theorem c10_markdown_chunks_start_at_headings_witness :
    (1, S "A").1 + 1 ≤
      (Chunk.mk (S "d.md") 2 3 (S "# A\nbody") (some (S "A"))).start_line :=
  ((c10_markdown_chunks_start_at_headings (S "intro\n# A\nbody") (S "d.md")
      (by decide)).2 (1, S "A") (by decide)).1
    (Chunk.mk (S "d.md") 2 3 (S "# A\nbody") (some (S "A"))) (by decide)

/-! ## C1: token budgets -/

/-- C1 counterexample: on the fixed budgets of `HaikuConfig`, the budget for
intent `complex` (6000) is not strictly below the budget for intent
`code_example` (4000), contradicting the claimed ordering
simple < complex < code_example. -/
theorem c1_budget_order_counterexample :
    ¬(get_token_budget (S "complex") defaultHaikuConfig <
      get_token_budget (S "code_example") defaultHaikuConfig) := by decide

/-- C1 (amended): the fixed budgets satisfy simple < code_example < complex
(1000 < 4000 < 6000); every query classifies to one of the three recognized
intents; an unrecognized intent string maps to the separate default budget,
which differs from all three intent budgets. -/
theorem c1_budget_order :
    get_token_budget (S "simple") defaultHaikuConfig <
        get_token_budget (S "code_example") defaultHaikuConfig ∧
    get_token_budget (S "code_example") defaultHaikuConfig <
        get_token_budget (S "complex") defaultHaikuConfig ∧
    (∀ q : Str, classify_query q = S "simple" ∨
        classify_query q = S "code_example" ∨ classify_query q = S "complex") ∧
    (∀ query_type : Str, query_type ≠ S "simple" →
        query_type ≠ S "code_example" → query_type ≠ S "complex" →
        get_token_budget query_type defaultHaikuConfig =
          defaultHaikuConfig.default_budget) ∧
    defaultHaikuConfig.default_budget ≠ defaultHaikuConfig.simple_budget ∧
    defaultHaikuConfig.default_budget ≠ defaultHaikuConfig.code_example_budget ∧
    defaultHaikuConfig.default_budget ≠ defaultHaikuConfig.complex_budget := by
  refine ⟨by decide, by decide, ?_, ?_, by decide, by decide, by decide⟩
  · intro q
    simp only [classify_query]
    split
    · right; left; rfl
    · split
      · right; right; rfl
      · left; rfl
  · intro qt h1 h2 h3
    simp only [get_token_budget, if_neg h1, if_neg h2, if_neg h3]

/-- C1 witness: the unrecognized intent string `weird` maps to the default
budget 2000. -/
theorem c1_budget_order_witness :
    get_token_budget (S "weird") defaultHaikuConfig =
      defaultHaikuConfig.default_budget :=
  c1_budget_order.2.2.2.1 (S "weird") (by decide) (by decide) (by decide)

/-! ## C8: empty-chunk short-circuit of distill -/

/-- C8: `distill` on an empty ranked-chunk list returns the fixed
no-relevant-information message with query type `simple`, budget 0 and
`cached = false`, leaves the cache exactly as it was, and does not invoke the
backend. -/
theorem c8_distill_empty_chunks (config : HaikuConfig) (query : Str)
    (use_cache : Bool) (cache : Cache) (now : Int)
    (backend : Str → Option Str) :
    distill config query [] use_cache cache now backend =
      (⟨no_info_message, S "simple", 0, false⟩, cache, false) := rfl

/-! ## C7: cache round trip -/

theorem distill_first_call (config : HaikuConfig) (query : Str)
    (chunks : List RankedChunk) (cache : Cache) (t0 : Int)
    (backend : Str → Option Str) (raw : Str) (hne : chunks ≠ [])
    (hmiss : cache (get_cache_key query chunks) = none)
    (hb : backend (distillPromptOf config query chunks) = some raw) :
    distill config query chunks true cache t0 backend =
      (⟨distillContent raw, classify_query query,
          get_token_budget (classify_query query) config, false⟩,
        store_cache (get_cache_key query chunks) (distillContent raw) t0 cache,
        true) := by
  obtain ⟨c0, cs0, rfl⟩ := List.exists_cons_of_ne_nil hne
  simp only [distill, List.isEmpty_cons, Bool.false_eq_true, if_false,
    check_cache, hmiss, if_true, hb]

theorem distillContent_ne_nil (raw : Str) : distillContent raw ≠ [] := by
  rw [distillContent]
  split
  · decide
  · assumption

theorem distill_second_call (config : HaikuConfig) (query : Str)
    (chunks : List RankedChunk) (cache : Cache) (t1 ts : Int) (ct : Str)
    (backend : Str → Option Str) (hne : chunks ≠ []) (hct : ct ≠ [])
    (hhit : cache (get_cache_key query chunks) = some (ct, ts))
    (hfresh : t1 - ts < CACHE_TTL_SECONDS) :
    distill config query chunks true cache t1 backend =
      (⟨ct, classify_query query,
          get_token_budget (classify_query query) config, true⟩, cache, false) := by
  obtain ⟨c0, cs0, rfl⟩ := List.exists_cons_of_ne_nil hne
  simp only [distill, List.isEmpty_cons, Bool.false_eq_true, if_false,
    check_cache, hhit, if_pos hfresh]
  simp [hct]

/-- C7: calling `distill` twice with the same query and ranked chunks, a
fresh cache key and a successful backend, with the second call within the TTL
window, invokes the backend on the first call only and returns the stored
response flagged as cached on the second call, with the cache unchanged by
the second call; and any cache entry whose age has reached the TTL is dropped
by `check_cache`: the lookup misses and the entry is deleted. -/
theorem c7_distill_cache_roundtrip :
    (∀ (config : HaikuConfig) (query : Str) (chunks : List RankedChunk)
        (cache : Cache) (t0 t1 : Int) (backend : Str → Option Str) (raw : Str),
        chunks ≠ [] →
        cache (get_cache_key query chunks) = none →
        backend (distillPromptOf config query chunks) = some raw →
        t1 - t0 < CACHE_TTL_SECONDS →
        (distill config query chunks true cache t0 backend).2.2 = true ∧
        (distill config query chunks true cache t0 backend).1.cached = false ∧
        distill config query chunks true
            (distill config query chunks true cache t0 backend).2.1 t1 backend =
          (⟨(distill config query chunks true cache t0 backend).1.content,
              (distill config query chunks true cache t0 backend).1.query_type,
              (distill config query chunks true cache t0 backend).1.token_budget,
              true⟩,
            (distill config query chunks true cache t0 backend).2.1, false)) ∧
    (∀ (key : CacheKey) (cache : Cache) (now : Int) (ct : Str × Int),
        cache key = some ct → CACHE_TTL_SECONDS ≤ now - ct.2 →
        (check_cache key cache now).1 = none ∧
          (check_cache key cache now).2 key = none) := by
  constructor
  · intro config query chunks cache t0 t1 backend raw hne hmiss hb hfresh
    have h1 := distill_first_call config query chunks cache t0 backend raw hne hmiss hb
    rw [h1]
    refine ⟨rfl, rfl, ?_⟩
    have h2 := distill_second_call config query chunks
      (store_cache (get_cache_key query chunks) (distillContent raw) t0 cache)
      t1 t0 (distillContent raw) backend hne (distillContent_ne_nil raw)
      (by simp [store_cache]) hfresh
    rw [h2]
  · intro key cache now ct hct hold
    have hn : ¬(now - ct.2 < CACHE_TTL_SECONDS) := not_lt.mpr hold
    simp only [check_cache, hct, if_neg hn]
    exact ⟨trivial, by simp⟩

/-- C7 witness: concrete round trip with one chunk, an empty cache, backend
answering text that strips to `ans`, first call at time 0 and second at time
10; plus a concrete expired entry (stored at 0, looked up at 5000) being
evicted. -/
theorem c7_distill_cache_roundtrip_witness :
    ((distill defaultHaikuConfig (S "q") [sampleRanked] true emptyCache 0
        constBackend).2.2 = true ∧
      (distill defaultHaikuConfig (S "q") [sampleRanked] true emptyCache 0
        constBackend).1.cached = false ∧
      distill defaultHaikuConfig (S "q") [sampleRanked] true
          (distill defaultHaikuConfig (S "q") [sampleRanked] true emptyCache 0
            constBackend).2.1 10 constBackend =
        (⟨(distill defaultHaikuConfig (S "q") [sampleRanked] true emptyCache 0
              constBackend).1.content,
            (distill defaultHaikuConfig (S "q") [sampleRanked] true emptyCache 0
              constBackend).1.query_type,
            (distill defaultHaikuConfig (S "q") [sampleRanked] true emptyCache 0
              constBackend).1.token_budget, true⟩,
          (distill defaultHaikuConfig (S "q") [sampleRanked] true emptyCache 0
            constBackend).2.1, false)) ∧
    ((check_cache (S "k", S "m") expiredCache 5000).1 = none ∧
      (check_cache (S "k", S "m") expiredCache 5000).2 (S "k", S "m") = none) :=
  ⟨c7_distill_cache_roundtrip.1 defaultHaikuConfig (S "q") [sampleRanked]
      emptyCache 0 10 constBackend (S " ans ") (by simp) rfl rfl (by decide),
    c7_distill_cache_roundtrip.2 (S "k", S "m") expiredCache 5000 (S "v", 0)
      (by decide) (by decide)⟩

/-! ## Search loop lemmas for C2 and C3 -/

theorem get_search_paths_exists (env : SearchEnv) (cfg : ConfigM) :
    ∀ p ∈ get_search_paths env cfg, env.pathExists p = true := by
  intro p hp
  rw [get_search_paths] at hp
  rcases List.mem_append.mp hp with h | h
  · by_cases hr : env.pathExists cfg.root_file_path
    · rw [if_pos hr] at h
      simp only [List.mem_singleton] at h
      subst h
      exact hr
    · rw [if_neg hr] at h
      exact absurd h (List.not_mem_nil _)
  · by_cases hr : env.pathExists cfg.docs_folder_path
    · rw [if_pos hr] at h
      simp only [List.mem_singleton] at h
      subst h
      exact hr
    · rw [if_neg hr] at h
      exact absurd h (List.not_mem_nil _)

theorem grepLoop_bound (env : SearchEnv) (isWinWsl : Bool) (keywords : List Str)
    (pattern : Str) (maxResults : Nat)
    (hcap : ∀ (p : Str) (cap : Nat) (out : Str),
      env.runGrep (build_grep_command isWinWsl pattern p (some cap)) =
        .success out → (parseResults keywords out).length ≤ cap) :
    ∀ (paths : List Str) (acc : List SearchResult), acc.length ≤ maxResults →
      ∀ l, grepLoop env isWinWsl keywords pattern maxResults paths acc = .ok l →
        l.length ≤ maxResults := by
  intro paths
  induction paths with
  | nil =>
    intro acc hacc l hl
    rw [grepLoop] at hl
    injection hl with h
    exact h ▸ hacc
  | cons p rest ih =>
    intro acc hacc l hl
    rw [grepLoop] at hl
    cases hex : env.pathExists p with
    | false =>
      simp only [hex, Bool.not_false, if_true] at hl
      exact ih acc hacc l hl
    | true =>
      simp only [hex, Bool.not_true, Bool.false_eq_true, if_false] at hl
      by_cases hrem : (maxResults : Int) - (acc.length : Int) ≤ 0
      · rw [if_pos hrem] at hl
        injection hl with h
        exact h ▸ hacc
      · rw [if_neg hrem] at hl
        cases hout : env.runGrep (build_grep_command isWinWsl pattern p
            (some ((maxResults : Int) - (acc.length : Int)).toNat)) with
        | success out =>
          rw [hout] at hl
          refine ih _ ?_ l hl
          rw [List.length_append]
          have h1 := hcap p _ out hout
          omega
        | timeout =>
          rw [hout] at hl
          injection hl with h
          exact h ▸ hacc
        | notFound =>
          rw [hout] at hl
          exact Except.noConfusion hl

theorem grep_search_bound (env : SearchEnv) (cfg : ConfigM) (isWinWsl : Bool)
    (keywords : List Str) (max_results : Option Nat)
    (hcap : ∀ (p : Str) (cap : Nat) (out : Str),
      env.runGrep (build_grep_command isWinWsl (buildPattern keywords) p
        (some cap)) = .success out → (parseResults keywords out).length ≤ cap) :
    ∀ l, grep_search env cfg isWinWsl keywords max_results = .ok l →
      l.length ≤ max_results.getD cfg.search.max_results := by
  intro l hl
  rw [grep_search] at hl
  by_cases hk : keywords = []
  · rw [if_pos hk] at hl
    injection hl with h
    rw [← h]
    exact Nat.zero_le _
  · rw [if_neg hk] at hl
    exact grepLoop_bound env isWinWsl keywords (buildPattern keywords) _ hcap _
      [] (Nat.zero_le _) l hl

theorem rgLoop_bound (env : SearchEnv) (cfg : ConfigM) (isWinWsl : Bool)
    (keywords : List Str) (maxResults : Nat)
    (hcapR : ∀ (p : Str) (cap : Nat) (out : Str),
      env.runRg (build_ripgrep_command cfg.knowledge_base isWinWsl
        (buildPattern keywords) p (some cap)) = .success out →
      (parseResults keywords out).length ≤ cap)
    (hcapG : ∀ (p : Str) (cap : Nat) (out : Str),
      env.runGrep (build_grep_command isWinWsl (buildPattern keywords) p
        (some cap)) = .success out → (parseResults keywords out).length ≤ cap) :
    ∀ (paths : List Str) (acc : List SearchResult), acc.length ≤ maxResults →
      ∀ l, rgLoop env cfg isWinWsl keywords (buildPattern keywords) maxResults
        paths acc = .ok l → l.length ≤ maxResults := by
  intro paths
  induction paths with
  | nil =>
    intro acc hacc l hl
    rw [rgLoop] at hl
    injection hl with h
    exact h ▸ hacc
  | cons p rest ih =>
    intro acc hacc l hl
    rw [rgLoop] at hl
    cases hex : env.pathExists p with
    | false =>
      simp only [hex, Bool.not_false, if_true] at hl
      exact ih acc hacc l hl
    | true =>
      simp only [hex, Bool.not_true, Bool.false_eq_true, if_false] at hl
      by_cases hrem : (maxResults : Int) - (acc.length : Int) ≤ 0
      · rw [if_pos hrem] at hl
        injection hl with h
        exact h ▸ hacc
      · rw [if_neg hrem] at hl
        cases hout : env.runRg (build_ripgrep_command cfg.knowledge_base
            isWinWsl (buildPattern keywords) p
            (some ((maxResults : Int) - (acc.length : Int)).toNat)) with
        | success out =>
          rw [hout] at hl
          refine ih _ ?_ l hl
          rw [List.length_append]
          have h1 := hcapR p _ out hout
          omega
        | timeout =>
          rw [hout] at hl
          injection hl with h
          exact h ▸ hacc
        | notFound =>
          rw [hout] at hl
          have := grep_search_bound env cfg isWinWsl keywords (some maxResults)
            hcapG l hl
          simpa using this

theorem grepLoop_error (env : SearchEnv) (isWinWsl : Bool)
    (keywords : List Str) (pattern : Str) (maxResults : Nat) :
    ∀ (paths : List Str) (acc : List SearchResult) (e : Str),
      grepLoop env isWinWsl keywords pattern maxResults paths acc = .error e →
      e = availabilityError ∧ ∃ cmd, env.runGrep cmd = .notFound := by
  intro paths
  induction paths with
  | nil =>
    intro acc e h
    rw [grepLoop] at h
    exact Except.noConfusion h
  | cons p rest ih =>
    intro acc e h
    rw [grepLoop] at h
    cases hex : env.pathExists p with
    | false =>
      simp only [hex, Bool.not_false, if_true] at h
      exact ih acc e h
    | true =>
      simp only [hex, Bool.not_true, Bool.false_eq_true, if_false] at h
      by_cases hrem : (maxResults : Int) - (acc.length : Int) ≤ 0
      · rw [if_pos hrem] at h
        exact Except.noConfusion h
      · rw [if_neg hrem] at h
        cases hout : env.runGrep (build_grep_command isWinWsl pattern p
            (some ((maxResults : Int) - (acc.length : Int)).toNat)) with
        | success out =>
          rw [hout] at h
          exact ih _ e h
        | timeout =>
          rw [hout] at h
          exact Except.noConfusion h
        | notFound =>
          rw [hout] at h
          injection h with h2
          exact ⟨h2.symm, _, hout⟩

theorem grep_search_error (env : SearchEnv) (cfg : ConfigM) (isWinWsl : Bool)
    (keywords : List Str) (max_results : Option Nat) :
    ∀ e, grep_search env cfg isWinWsl keywords max_results = .error e →
      e = availabilityError ∧ ∃ cmd, env.runGrep cmd = .notFound := by
  intro e h
  rw [grep_search] at h
  by_cases hk : keywords = []
  · rw [if_pos hk] at h
    exact Except.noConfusion h
  · rw [if_neg hk] at h
    exact grepLoop_error env isWinWsl keywords (buildPattern keywords) _ _ [] e h

theorem rgLoop_error (env : SearchEnv) (cfg : ConfigM) (isWinWsl : Bool)
    (keywords : List Str) (pattern : Str) (maxResults : Nat) :
    ∀ (paths : List Str) (acc : List SearchResult) (e : Str),
      rgLoop env cfg isWinWsl keywords pattern maxResults paths acc = .error e →
      e = availabilityError ∧ ∃ cmd, env.runGrep cmd = .notFound := by
  intro paths
  induction paths with
  | nil =>
    intro acc e h
    rw [rgLoop] at h
    exact Except.noConfusion h
  | cons p rest ih =>
    intro acc e h
    rw [rgLoop] at h
    cases hex : env.pathExists p with
    | false =>
      simp only [hex, Bool.not_false, if_true] at h
      exact ih acc e h
    | true =>
      simp only [hex, Bool.not_true, Bool.false_eq_true, if_false] at h
      by_cases hrem : (maxResults : Int) - (acc.length : Int) ≤ 0
      · rw [if_pos hrem] at h
        exact Except.noConfusion h
      · rw [if_neg hrem] at h
        cases hout : env.runRg (build_ripgrep_command cfg.knowledge_base
            isWinWsl pattern p
            (some ((maxResults : Int) - (acc.length : Int)).toNat)) with
        | success out =>
          rw [hout] at h
          exact ih _ e h
        | timeout =>
          rw [hout] at h
          exact Except.noConfusion h
        | notFound =>
          rw [hout] at h
          exact grep_search_error env cfg isWinWsl keywords (some maxResults) e h

/-! ## C2: the search result budget -/

/-- C2 counterexample: with a one-result budget and a tool invocation whose
output holds two parseable lines, `ripgrep_search` returns both results: the
code never trims an invocation's parsed output to the remaining budget (the
cap is only requested from the tool), so the claimed bound fails for outputs
the external tool may emit. -/
theorem c2_search_result_budget_counterexample :
    ripgrep_search envOver searchCfg false true [S "abc"] (some 1) =
      .ok [⟨S "a", 1, S "x", []⟩, ⟨S "b", 2, S "y", []⟩] ∧
    ¬(([(⟨S "a", 1, S "x", []⟩ : SearchResult), ⟨S "b", 2, S "y", []⟩]).length ≤
      (some 1 : Option Nat).getD searchCfg.search.max_results) :=
  ⟨rfl, by decide⟩

/-- C2 (amended): provided every tool invocation emits at most its requested
cap of parseable result lines, the search returns at most `max_results`
results in total — each invocation is requested with a cap equal to the
budget remaining after earlier roots and no invocation occurs once the budget
is exhausted; moreover the ripgrep command built for a nonzero cap carries
`--max-count <cap>`. -/
theorem c2_search_result_budget :
    (∀ (env : SearchEnv) (cfg : ConfigM) (isWinWsl useRipgrep : Bool)
        (keywords : List Str) (max_results : Option Nat),
      (∀ (p : Str) (cap : Nat) (out : Str),
        env.runRg (build_ripgrep_command cfg.knowledge_base isWinWsl
          (buildPattern keywords) p (some cap)) = .success out →
        (parseResults keywords out).length ≤ cap) →
      (∀ (p : Str) (cap : Nat) (out : Str),
        env.runGrep (build_grep_command isWinWsl (buildPattern keywords) p
          (some cap)) = .success out →
        (parseResults keywords out).length ≤ cap) →
      ∀ l, ripgrep_search env cfg isWinWsl useRipgrep keywords max_results =
        .ok l → l.length ≤ max_results.getD cfg.search.max_results) ∧
    (∀ (kb : KnowledgeBaseConfig) (isWinWsl : Bool) (pattern p : Str)
        (cap : Nat), cap ≠ 0 →
      [S "--max-count", natToStr cap] <:+:
        build_ripgrep_command kb isWinWsl pattern p (some cap)) := by
  constructor
  · intro env cfg isWinWsl useRipgrep keywords max_results hcapR hcapG l hl
    rw [ripgrep_search] at hl
    by_cases hk : keywords = []
    · rw [if_pos hk] at hl
      injection hl with h
      rw [← h]
      exact Nat.zero_le _
    · rw [if_neg hk] at hl
      cases hrg : useRipgrep with
      | false =>
        simp only [hrg, Bool.not_false, if_true] at hl
        exact grep_search_bound env cfg isWinWsl keywords max_results hcapG l hl
      | true =>
        simp only [hrg, Bool.not_true, Bool.false_eq_true, if_false] at hl
        exact rgLoop_bound env cfg isWinWsl keywords _ hcapR hcapG _ []
          (Nat.zero_le _) l hl
  · intro kb isWinWsl pattern p cap hcap
    refine ⟨(if isWinWsl then [S "wsl.exe", S "rg"] else [S "rg"]) ++
      [S "--ignore-case", S "--line-number", S "--no-heading", S "--color=never"] ++
      kb.file_patterns.flatMap (fun g => [S "--glob", g]) ++
      kb.exclude_patterns.flatMap (fun g => [S "--glob", '!' :: g]),
      [pattern, if isWinWsl then wsl_path_to_linux p else p], ?_⟩
    simp [build_ripgrep_command, hcap]

/-- C2 witness: with an environment whose tools always return empty output
(so every invocation trivially respects its cap), the search over the default
two-root configuration returns no results, within the budget of 50. -/
theorem c2_search_result_budget_witness :
    ripgrep_search envEmptyOk searchCfg false true [S "abc"] none = .ok [] ∧
    ([] : List SearchResult).length ≤
      (none : Option Nat).getD searchCfg.search.max_results :=
  ⟨rfl, c2_search_result_budget.1 envEmptyOk searchCfg false true [S "abc"] none
    (fun _ _ out h => by
      injection h with h2
      rw [← h2]
      exact Nat.zero_le _)
    (fun _ _ out h => by
      injection h with h2
      rw [← h2]
      exact Nat.zero_le _)
    [] rfl⟩

/-! ## C3: tool fallback policy -/

/-- C3 counterexample: ripgrep succeeds on the first root (collecting one
parsed result) and raises not-found on the second root; the code then returns
the grep search's results from scratch — here empty — so the result already
collected from the first root is discarded, contradicting "preserving results
already collected". -/
theorem c3_search_tool_fallback_counterexample :
    ripgrep_search envFb searchCfg false true [S "abc"] none = .ok [] ∧
    envFb.runRg (build_ripgrep_command searchCfg.knowledge_base false
      (buildPattern [S "abc"]) (S "r1") (some 50)) =
      .success (S "r1:1:abc hit") ∧
    parseResults [S "abc"] (S "r1:1:abc hit") =
      [⟨S "r1", 1, S "abc hit", S "abc"⟩] :=
  ⟨rfl, rfl, rfl⟩

/-- C3 (amended): if ripgrep is unavailable up front, the search runs as a
grep search; if a ripgrep invocation raises not-found, the search restarts
from the first root as a grep search with the full original budget,
discarding any results ripgrep had already collected; grep is restricted to
the four fixed include globs (md, prg, c, py — a strict subset of the eleven
configured patterns); if grep also raises not-found the operation fails with
the availability error, and that is the only error the search can surface. -/
theorem c3_search_tool_fallback :
    (∀ (env : SearchEnv) (cfg : ConfigM) (isWinWsl : Bool)
        (keywords : List Str) (max_results : Option Nat),
      ripgrep_search env cfg isWinWsl false keywords max_results =
        grep_search env cfg isWinWsl keywords max_results) ∧
    (∀ (env : SearchEnv) (cfg : ConfigM) (isWinWsl : Bool)
        (keywords : List Str) (max_results : Option Nat),
      keywords ≠ [] → get_search_paths env cfg ≠ [] →
      1 ≤ max_results.getD cfg.search.max_results →
      (∀ cmd, env.runRg cmd = .notFound) →
      ripgrep_search env cfg isWinWsl true keywords max_results =
        grep_search env cfg isWinWsl keywords
          (some (max_results.getD cfg.search.max_results))) ∧
    (∀ (env : SearchEnv) (cfg : ConfigM) (isWinWsl : Bool)
        (keywords : List Str) (max_results : Option Nat),
      keywords ≠ [] → get_search_paths env cfg ≠ [] →
      1 ≤ max_results.getD cfg.search.max_results →
      (∀ cmd, env.runRg cmd = .notFound) →
      (∀ cmd, env.runGrep cmd = .notFound) →
      ripgrep_search env cfg isWinWsl true keywords max_results =
        .error availabilityError) ∧
    (∀ (env : SearchEnv) (cfg : ConfigM) (isWinWsl useRipgrep : Bool)
        (keywords : List Str) (max_results : Option Nat) (e : Str),
      ripgrep_search env cfg isWinWsl useRipgrep keywords max_results =
        .error e →
      e = availabilityError ∧ ∃ cmd, env.runGrep cmd = .notFound) ∧
    (∀ (isWinWsl : Bool) (pattern p : Str) (m : Option Nat),
      [S "--include=*.md", S "--include=*.prg", S "--include=*.c",
        S "--include=*.py"] <:+: build_grep_command isWinWsl pattern p m) ∧
    [S "*.md", S "*.prg", S "*.c", S "*.py"] ⊆
      defaultKnowledgeBaseConfig.file_patterns ∧
    4 < defaultKnowledgeBaseConfig.file_patterns.length := by
  have hfb : ∀ (env : SearchEnv) (cfg : ConfigM) (isWinWsl : Bool)
      (keywords : List Str) (max_results : Option Nat),
      keywords ≠ [] → get_search_paths env cfg ≠ [] →
      1 ≤ max_results.getD cfg.search.max_results →
      (∀ cmd, env.runRg cmd = .notFound) →
      ripgrep_search env cfg isWinWsl true keywords max_results =
        grep_search env cfg isWinWsl keywords
          (some (max_results.getD cfg.search.max_results)) := by
    intro env cfg isWinWsl keywords max_results hk hp hM hrg
    rw [ripgrep_search, if_neg hk]
    simp only [Bool.not_true, Bool.false_eq_true, if_false]
    cases hpaths : get_search_paths env cfg with
    | nil => exact absurd hpaths hp
    | cons p rest =>
      rw [rgLoop]
      have hex : env.pathExists p = true :=
        get_search_paths_exists env cfg p (hpaths ▸ List.mem_cons_self _ _)
      simp only [hex, Bool.not_true, Bool.false_eq_true, if_false]
      rw [if_neg (by
        simp only [List.length_nil, Nat.cast_zero]
        omega), hrg]
  refine ⟨?_, hfb, ?_, ?_, ?_, by decide, by decide⟩
  · intro env cfg isWinWsl keywords max_results
    by_cases hk : keywords = []
    · rw [ripgrep_search, if_pos hk, grep_search, if_pos hk]
    · rw [ripgrep_search, if_neg hk]
      simp only [Bool.not_false, if_true]
  · intro env cfg isWinWsl keywords max_results hk hp hM hrg hgrep
    rw [hfb env cfg isWinWsl keywords max_results hk hp hM hrg,
      grep_search, if_neg hk]
    cases hpaths : get_search_paths env cfg with
    | nil => exact absurd hpaths hp
    | cons p rest =>
      rw [grepLoop]
      have hex : env.pathExists p = true :=
        get_search_paths_exists env cfg p (hpaths ▸ List.mem_cons_self _ _)
      simp only [hex, Bool.not_true, Bool.false_eq_true, if_false]
      rw [if_neg (by
        simp only [List.length_nil, Nat.cast_zero]
        simp only [Option.getD_some]
        omega), hgrep]
  · intro env cfg isWinWsl useRipgrep keywords max_results e h
    rw [ripgrep_search] at h
    by_cases hk : keywords = []
    · rw [if_pos hk] at h
      exact Except.noConfusion h
    · rw [if_neg hk] at h
      cases hrg : useRipgrep with
      | false =>
        simp only [hrg, Bool.not_false, if_true] at h
        exact grep_search_error env cfg isWinWsl keywords max_results e h
      | true =>
        simp only [hrg, Bool.not_true, Bool.false_eq_true, if_false] at h
        exact rgLoop_error env cfg isWinWsl keywords _ _ _ [] e h
  · intro isWinWsl pattern p m
    refine ⟨(if isWinWsl then [S "wsl.exe", S "grep"] else [S "grep"]) ++
      [S "-r", S "-i", S "-n", S "-E"],
      (match m with
       | some mv => if mv ≠ 0 then [S "-m", natToStr mv] else []
       | none => []) ++
        [pattern, if isWinWsl then wsl_path_to_linux p else p], ?_⟩
    simp [build_grep_command]

/-- C3 witness: when ripgrep is missing but grep works, the search equals the
grep search with the full budget; when both are missing it fails with the
availability error. -/
theorem c3_search_tool_fallback_witness :
    ripgrep_search envRgMissing searchCfg false true [S "abc"] none =
      grep_search envRgMissing searchCfg false [S "abc"] (some 50) ∧
    ripgrep_search envAllNotFound searchCfg false true [S "abc"] none =
      .error availabilityError :=
  ⟨c3_search_tool_fallback.2.1 envRgMissing searchCfg false [S "abc"] none
      (by decide) (by decide) (by decide) (fun _ => rfl),
    c3_search_tool_fallback.2.2.1 envAllNotFound searchCfg false [S "abc"] none
      (by decide) (by decide) (by decide) (fun _ => rfl) (fun _ => rfl)⟩

/-! ## C6: ranking-score lemmas -/

theorem countSub_pos_of_isSubstr {sub : Str} (hsub : sub ≠ []) :
    ∀ s : Str, isSubstr sub s = true → 0 < countSubAux sub s.length s := by
  intro s
  induction s with
  | nil =>
    intro h
    rw [isSubstr] at h
    exact absurd (List.isEmpty_iff.mp h) hsub
  | cons c cs ih =>
    intro h
    rw [isSubstr] at h
    rw [List.length_cons, countSubAux]
    by_cases hp : sub.isPrefixOf (c :: cs) = true
    · rw [if_pos hp]
      omega
    · rw [if_neg hp]
      rw [Bool.or_eq_true] at h
      rcases h with h | h
      · exact absurd h hp
      · exact ih h

theorem isSubstr_eq_false_of_countSub_eq_zero {sub s : Str}
    (h : countSub sub s = 0) : isSubstr sub s = false := by
  by_cases hsub : sub = []
  · subst hsub
    rw [countSub, if_pos rfl] at h
    omega
  · rw [countSub, if_neg hsub] at h
    cases hss : isSubstr sub s with
    | false => rfl
    | true =>
      have := countSub_pos_of_isSubstr hsub s hss
      omega

theorem countP_lt_length {α : Type} (p : α → Bool) :
    ∀ (l : List α) (x : α), x ∈ l → p x = false → l.countP p < l.length := by
  intro l
  induction l with
  | nil =>
    intro x hx
    exact absurd hx (List.not_mem_nil _)
  | cons a l ih =>
    intro x hx hpx
    rw [List.countP_cons, List.length_cons]
    rcases List.mem_cons.mp hx with rfl | hx'
    · simp only [hpx, Bool.false_eq_true, if_false]
      have := List.countP_le_length (p := p) (l := l)
      omega
    · have h1 := ih x hx' hpx
      have hd : (if p a = true then 1 else 0) ≤ 1 := by
        split <;> omega
      omega

theorem dedupFirst_pair {k1 k2 : Str} (hk : k1 ≠ k2) :
    dedupFirst [k1, k2] = [k1, k2] := by
  have h2 : k2 ≠ k1 := Ne.symm hk
  simp [dedupFirst, dedupFirstAux, h2]

theorem count_pair_left {k1 k2 : Str} (hk : k1 ≠ k2) :
    List.count k1 [k1, k2] = 1 := by
  have h2 : k2 ≠ k1 := Ne.symm hk
  simp [List.count_cons, h2]

theorem count_pair_right {k1 k2 : Str} (hk : k1 ≠ k2) :
    List.count k2 [k1, k2] = 1 := by
  simp [List.count_cons, hk]

theorem calculate_score_both (c : Chunk) (k1 k2 : Str) (df : Str → Nat)
    (N : Nat) (hk : k1 ≠ k2)
    (h1 : countSub (lowerS k1) (lowerS (c.header.getD [] ++ ' ' :: c.content)) = 1)
    (h2 : countSub (lowerS k2) (lowerS (c.header.getD [] ++ ' ' :: c.content)) = 1)
    (hb1 : isSubstr (lowerS k1) (lowerS (c.header.getD [])) = false)
    (hb2 : isSubstr (lowerS k2) (lowerS (c.header.getD [])) = false) :
    (calculate_score c [k1, k2] df N).1 =
      Real.log 2 * Real.log ((N : ℝ) / (1 + (df k1 : ℝ))) +
        Real.log 2 * Real.log ((N : ℝ) / (1 + (df k2 : ℝ))) + Real.sqrt 2 := by
  simp only [calculate_score, dedupFirst_pair hk]
  simp [h1, h2, hb1, hb2]
  norm_num

theorem calculate_score_onlyFirst (c : Chunk) (k1 k2 : Str) (df : Str → Nat)
    (N : Nat) (hk : k1 ≠ k2)
    (h1 : countSub (lowerS k1) (lowerS (c.header.getD [] ++ ' ' :: c.content)) = 1)
    (h2 : countSub (lowerS k2) (lowerS (c.header.getD [] ++ ' ' :: c.content)) = 0)
    (hb1 : isSubstr (lowerS k1) (lowerS (c.header.getD [])) = false) :
    (calculate_score c [k1, k2] df N).1 =
      Real.log 2 * Real.log ((N : ℝ) / (1 + (df k1 : ℝ))) + 1 := by
  simp only [calculate_score, dedupFirst_pair hk]
  simp [h1, h2, hb1]
  norm_num

theorem calculate_score_onlySecond (c : Chunk) (k1 k2 : Str) (df : Str → Nat)
    (N : Nat) (hk : k1 ≠ k2)
    (h1 : countSub (lowerS k1) (lowerS (c.header.getD [] ++ ' ' :: c.content)) = 0)
    (h2 : countSub (lowerS k2) (lowerS (c.header.getD [] ++ ' ' :: c.content)) = 1)
    (hb2 : isSubstr (lowerS k2) (lowerS (c.header.getD [])) = false) :
    (calculate_score c [k1, k2] df N).1 =
      Real.log 2 * Real.log ((N : ℝ) / (1 + (df k2 : ℝ))) + 1 := by
  simp only [calculate_score, dedupFirst_pair hk]
  simp [h1, h2, hb2]
  norm_num

/-- The document-frequency-based IDF factor is nonnegative whenever some
chunk of the candidate set does not contain the keyword. -/
theorem idf_nonneg {chunks : List Chunk} {k1 k2 kmiss : Str} {B : Chunk}
    (hk : k1 ≠ k2) (hmem : kmiss = k1 ∨ kmiss = k2) (hB : B ∈ chunks)
    (hzero : countSub (lowerS kmiss) (lowerS (combinedText B)) = 0) :
    0 ≤ Real.log ((chunks.length : ℝ) /
      (1 + (docFreq chunks [k1, k2] kmiss : ℝ))) := by
  have hcount : List.count kmiss [k1, k2] = 1 := by
    rcases hmem with rfl | rfl
    · exact count_pair_left hk
    · exact count_pair_right hk
  have hfalse : isSubstr (lowerS kmiss) (lowerS (combinedText B)) = false :=
    isSubstr_eq_false_of_countSub_eq_zero hzero
  have hlt : chunks.countP
      (fun c => isSubstr (lowerS kmiss) (lowerS (combinedText c))) <
      chunks.length :=
    countP_lt_length _ chunks B hB hfalse
  have hdf : docFreq chunks [k1, k2] kmiss + 1 ≤ chunks.length := by
    rw [docFreq, hcount, one_mul]
    omega
  apply Real.log_nonneg
  rw [le_div_iff₀ (by positivity)]
  rw [one_mul]
  have : (docFreq chunks [k1, k2] kmiss : ℝ) + 1 ≤ (chunks.length : ℝ) := by
    exact_mod_cast hdf
  linarith

theorem sqrt_two_gt_one : (1 : ℝ) < Real.sqrt 2 := by
  have h := Real.sq_sqrt (by norm_num : (0:ℝ) ≤ 2)
  nlinarith [Real.sqrt_nonneg 2]

/-! ## C6: the ranking ordering claim -/

/-- C6 counterexample: over a 19-chunk candidate set where both keywords have
document frequency 2, the chunk `chA` contains both keywords (once each)
while `chB` contains only `alpha`; yet `chB` scores strictly higher than
`chA`, because term frequency (three occurrences) and the header boost
outweigh the second matched keyword and the diversity bonus.  Equal document
frequency alone therefore does not make the two-keyword chunk rank strictly
higher. -/
theorem c6_ranking_ordering_counterexample :
    docFreq c6Chunks c6Kws (S "alpha") = docFreq c6Chunks c6Kws (S "beta") ∧
    isSubstr (lowerS (S "alpha")) (lowerS (combinedText chA)) = true ∧
    isSubstr (lowerS (S "beta")) (lowerS (combinedText chA)) = true ∧
    isSubstr (lowerS (S "alpha")) (lowerS (combinedText chB)) = true ∧
    isSubstr (lowerS (S "beta")) (lowerS (combinedText chB)) = false ∧
    (calculate_score chA c6Kws (docFreq c6Chunks c6Kws) c6Chunks.length).1 <
      (calculate_score chB c6Kws (docFreq c6Chunks c6Kws) c6Chunks.length).1 := by
  refine ⟨rfl, rfl, rfl, rfl, rfl, ?_⟩
  simp only [show c6Kws = [S "alpha", S "beta"] from rfl]
  have hdfa : docFreq c6Chunks [S "alpha", S "beta"] (S "alpha") = 2 := rfl
  have hdfb : docFreq c6Chunks [S "alpha", S "beta"] (S "beta") = 2 := rfl
  have hN : c6Chunks.length = 19 := rfl
  have hA : (calculate_score chA [S "alpha", S "beta"]
      (docFreq c6Chunks [S "alpha", S "beta"]) c6Chunks.length).1 =
      Real.log 2 * Real.log ((19 : ℝ) / 3) +
        Real.log 2 * Real.log ((19 : ℝ) / 3) + Real.sqrt 2 := by
    have h := calculate_score_both chA (S "alpha") (S "beta")
      (docFreq c6Chunks [S "alpha", S "beta"]) c6Chunks.length
      (by decide) rfl rfl rfl rfl
    rw [h, hdfa, hdfb, hN]
    norm_num
  have hB : (calculate_score chB [S "alpha", S "beta"]
      (docFreq c6Chunks [S "alpha", S "beta"]) c6Chunks.length).1 =
      Real.log 4 * Real.log ((19 : ℝ) / 3) * 2 + 1 := by
    have h : (calculate_score chB [S "alpha", S "beta"]
        (docFreq c6Chunks [S "alpha", S "beta"]) c6Chunks.length).1 =
        Real.log (1 + ((3 : ℕ) : ℝ)) *
            Real.log (((19 : ℕ) : ℝ) / (1 + ((2 : ℕ) : ℝ))) * 2 + 0 +
          Real.sqrt ((1 : ℕ) : ℝ) := rfl
    rw [h]
    norm_num
  rw [hA, hB]
  have hI : (1 : ℝ) < Real.log (19 / 3) := by
    rw [Real.lt_log_iff_exp_lt (by norm_num)]
    calc Real.exp 1 < 2.7182818286 := Real.exp_one_lt_d9
    _ < 19 / 3 := by norm_num
  have hlog2 : (0.6931471803 : ℝ) < Real.log 2 := Real.log_two_gt_d9
  have hsqrt : Real.sqrt 2 < 1.5 := by
    rw [Real.sqrt_lt' (by norm_num)]
    norm_num
  have hlog4 : Real.log 4 = 2 * Real.log 2 := by
    rw [show (4 : ℝ) = 2 ^ 2 by norm_num, Real.log_pow]
    norm_num
  rw [hlog4]
  nlinarith [hI, hlog2, hsqrt]

/-- C6 (amended): ranking with an empty keyword list or an empty chunk list
returns the empty list; and within one candidate set, assuming equal document
frequency for the two distinct query keywords, a chunk containing each of the
two keywords exactly once (neither in its header) receives a strictly higher
score than a chunk containing exactly one of them once (not in its header):
the extra matched keyword and the larger diversity bonus dominate since the
shared IDF factor is nonnegative under equal document frequency.  Ranking
order follows, since `rank` sorts by score descending. -/
theorem c6_ranking_ordering :
    (∀ (top_n : Nat) (chunks : List Chunk), rank top_n chunks [] = []) ∧
    (∀ (top_n : Nat) (keywords : List Str), rank top_n [] keywords = []) ∧
    (∀ (chunks : List Chunk) (k1 k2 : Str) (A B : Chunk),
      k1 ≠ k2 → A ∈ chunks → B ∈ chunks →
      docFreq chunks [k1, k2] k1 = docFreq chunks [k1, k2] k2 →
      countSub (lowerS k1) (lowerS (combinedText A)) = 1 →
      countSub (lowerS k2) (lowerS (combinedText A)) = 1 →
      isSubstr (lowerS k1) (lowerS (A.header.getD [])) = false →
      isSubstr (lowerS k2) (lowerS (A.header.getD [])) = false →
      ((countSub (lowerS k1) (lowerS (combinedText B)) = 1 ∧
        countSub (lowerS k2) (lowerS (combinedText B)) = 0 ∧
        isSubstr (lowerS k1) (lowerS (B.header.getD [])) = false) ∨
       (countSub (lowerS k2) (lowerS (combinedText B)) = 1 ∧
        countSub (lowerS k1) (lowerS (combinedText B)) = 0 ∧
        isSubstr (lowerS k2) (lowerS (B.header.getD [])) = false)) →
      (calculate_score B [k1, k2] (docFreq chunks [k1, k2]) chunks.length).1 <
        (calculate_score A [k1, k2] (docFreq chunks [k1, k2])
          chunks.length).1) := by
  refine ⟨?_, ?_, ?_⟩
  · intro top_n chunks
    rw [rank, if_pos (Or.inr rfl)]
  · intro top_n keywords
    rw [rank, if_pos (Or.inl rfl)]
  · intro chunks k1 k2 A B hk hA hB hdf hA1 hA2 hbA1 hbA2 hBcase
    rw [combinedText] at hA1 hA2
    have hscoreA := calculate_score_both A k1 k2 (docFreq chunks [k1, k2])
      chunks.length hk hA1 hA2 hbA1 hbA2
    rw [hscoreA, hdf]
    rcases hBcase with ⟨hB1, hB2, hbB⟩ | ⟨hB1, hB2, hbB⟩
    · have hidf : 0 ≤ Real.log ((chunks.length : ℝ) /
          (1 + (docFreq chunks [k1, k2] k2 : ℝ))) :=
        idf_nonneg hk (Or.inr rfl) hB hB2
      rw [combinedText] at hB1 hB2
      have hscoreB := calculate_score_onlyFirst B k1 k2
        (docFreq chunks [k1, k2]) chunks.length hk hB1 hB2 hbB
      rw [hscoreB, hdf]
      have hlog2 : 0 < Real.log 2 := Real.log_pos (by norm_num)
      nlinarith [sqrt_two_gt_one, hidf, hlog2]
    · have hidf : 0 ≤ Real.log ((chunks.length : ℝ) /
          (1 + (docFreq chunks [k1, k2] k1 : ℝ))) := by
        have := @idf_nonneg chunks k1 k2 k1 B hk (Or.inl rfl) hB hB2
        exact this
      rw [combinedText] at hB1 hB2
      have hscoreB := calculate_score_onlySecond B k1 k2
        (docFreq chunks [k1, k2]) chunks.length hk hB2 hB1 hbB
      rw [hscoreB]
      have hidf2 : 0 ≤ Real.log ((chunks.length : ℝ) /
          (1 + (docFreq chunks [k1, k2] k2 : ℝ))) := by
        rw [← hdf]
        exact hidf
      have hlog2 : 0 < Real.log 2 := Real.log_pos (by norm_num)
      nlinarith [sqrt_two_gt_one, hidf2, hlog2]

/-- C6 witness: in the three-chunk witness set (both keywords have document
frequency 2), the two-keyword chunk `chA` scores strictly higher than the
one-keyword chunk `chB2`. -/
theorem c6_ranking_ordering_witness :
    (calculate_score chB2 [S "alpha", S "beta"] (docFreq c6WChunks c6Kws)
        c6WChunks.length).1 <
      (calculate_score chA [S "alpha", S "beta"] (docFreq c6WChunks c6Kws)
        c6WChunks.length).1 := by
  have h := c6_ranking_ordering.2.2 c6WChunks (S "alpha") (S "beta") chA chB2
    (by decide) (by decide) (by decide) rfl rfl rfl rfl rfl
    (Or.inl ⟨rfl, rfl, rfl⟩)
  simpa [c6Kws] using h

end EnhancedRLM
